import Mathlib

/-!
# bkmonitor-datalink: forwarder stage, tiered configuration, GSE output, FTA alerts

A shallow embedding of

* `pkg/collector/processor/forwarder/factory.go` (`newFactory`, `Process`, `Clean`),
* the tiered configuration table `confengine.TierConfig` it stores its clients in,
* the SkyWalking HTTP segment handlers (admission gate before publishing),
* `pkg/libgse/output/gse/gse.go` (`Publish`, `PublishEvent`, `getdataid`,
  `publishEventAttachInfo`, `agentInfoLoader`),
* `pkg/transfer/template/etl/fta/fta_alert.go` (`convertToExprMap` and the transform of
  `NewAlertFTAProcessor`).

Go values of type `error` are `Option GoError` (`none` is `nil`).  Calls into
collaborators whose result the code cannot predict (decoding, the forwarding
transport, stopping a client) are fields of an environment record and every
such call is written to an effect trace, so that "was called", "was called
once" and "was never called" are statements about a list.  A Go panic is the
result `none` of a `Run`.
-/

set_option autoImplicit false

namespace Collector

/-! ## Errors, records -/

/-- Go `error` values.  `ErrEndOfPipeline` is the sentinel `define.ErrEndOfPipeline`;
every other error is identified by its message. -/
inductive GoError where
  | ErrEndOfPipeline
  | other (msg : String)
  deriving DecidableEq, Repr

/-- The enum `define.RecordType`, restricted to the kinds the data model names. -/
inductive RecordType where
  | RecordTraces
  | RecordMetrics
  | RecordLogs
  deriving DecidableEq, Repr

/-- The tenant identity `define.Token`; the forwarder reads `Original` only. -/
structure Token where
  Original : String
  deriving DecidableEq, Repr

/-- The dynamically typed field `Record.Data` (an `interface{}`): the constructor
is the dynamic type, `Pd` the payload content. -/
inductive RecordData (Pd : Type) where
  | traces (pd : Pd)
  | metrics (pd : Pd)
  | logs (pd : Pd)
  deriving DecidableEq, Repr

/-- The struct `define.Record`. -/
structure Record (Pd : Type) where
  RecordType : RecordType
  Token : Token
  Data : RecordData Pd
  deriving DecidableEq, Repr

/-- A record is well typed when the dynamic type of `Data` is the one `RecordType` announces. -/
def Record.WellTyped {Pd : Type} (r : Record Pd) : Prop :=
  match r.RecordType, r.Data with
  | .RecordTraces, .traces _ => True
  | .RecordMetrics, .metrics _ => True
  | .RecordLogs, .logs _ => True
  | _, _ => False

/-- Outcome of running a Go function: the effects it performed, in order, and its
return value, `none` when it panicked. -/
structure Run (E α : Type) where
  effects : List E
  result : Option α
  deriving DecidableEq, Repr

/-! ## TierConfig -/

/-- An iteration order: a way to list the elements of a collection, which rearranges
them and neither drops nor repeats any. -/
structure IterOrder (V : Type) where
  apply : List V → List V
  perm : ∀ l, (apply l).Perm l

/-- The order that lists the elements as they are stored. -/
def IterOrder.stored {V : Type} : IterOrder V :=
  { apply := fun l => l, perm := fun l => List.Perm.refl l }

/-- The order that lists the elements back to front. -/
def IterOrder.reversed {V : Type} : IterOrder V :=
  { apply := List.reverse, perm := fun l => List.reverse_perm l }

/-- Key of an override in the tiered table: tenant token, scope type, scope id. -/
structure TierKey where
  token : String
  type : String
  id : String
  deriving DecidableEq, Repr

/-- Modelled from the spec: `confengine.TierConfig` is not among the sources.  It
holds one global value (unset by `NewTierConfig`) and a mapping from
(token, scope type, scope id) to an overriding value; the mapping is kept as an
association list with at most one entry per key, in order of last write. -/
structure TierConfig (V : Type) where
  global : Option V
  subs : List (TierKey × V)
  deriving DecidableEq, Repr

namespace TierConfig

variable {V : Type}

/-- Modelled from the spec: `confengine.NewTierConfig`, the empty table. -/
def NewTierConfig : TierConfig V :=
  { global := none, subs := [] }

/-- Modelled from the spec: `SetGlobal(value)` installs the mandatory default. -/
def SetGlobal (tc : TierConfig V) (v : V) : TierConfig V :=
  { tc with global := some v }

/-- Modelled from the spec: `Set(token, scopeType, scopeID, value)` installs an
override; the last write for an identical key wins. -/
def Set (tc : TierConfig V) (token type id : String) (v : V) : TierConfig V :=
  { tc with subs := tc.subs.filter (fun kv => decide (kv.1 ≠ ⟨token, type, id⟩))
                      ++ [(⟨token, type, id⟩, v)] }

/-- Modelled from the spec: the override installed at exactly this key, if any. -/
def lookup (tc : TierConfig V) (k : TierKey) : Option V :=
  (tc.subs.find? (fun kv => decide (kv.1 = k))).map Prod.snd

/-- Modelled from the spec: `Get(token, scopeType, scopeID)` resolves with the
precedence exact (token, type, id) match, then global default; an empty token
requests no override.  The result is `none` only when no global was installed. -/
def Get (tc : TierConfig V) (token type id : String) : Option V :=
  if token = "" then tc.global
  else
    match tc.lookup ⟨token, type, id⟩ with
    | some v => some v
    | none => tc.global

/-- Modelled from the spec: `GetByToken(token)` keys by tenant identity only, scope
type and scope id empty. -/
def GetByToken (tc : TierConfig V) (token : String) : Option V :=
  tc.Get token "" ""

/-- Modelled from the spec: the installed values, the global one and every override,
listed once each. -/
def installed (tc : TierConfig V) : List V :=
  tc.global.toList ++ tc.subs.map Prod.snd

/-- Modelled from the spec: `All()` is the sequence of installed values, in an order
that is unspecified: each call returns them in the order that `order` picks. -/
def All (tc : TierConfig V) (order : IterOrder V) : List V :=
  order.apply tc.installed

end TierConfig

/-! ## The forwarder stage -/

section Forwarder

variable {Raw Cfg Pd : Type}

/-- The forwarding client built by `NewClient` from a decoded `Config`; the type
`Config` is the parameter `Cfg`. -/
structure Client (Cfg : Type) where
  conf : Cfg
  deriving DecidableEq, Repr

/-- The constructor `NewClient(conf)`. -/
def NewClient (c : Cfg) : Client Cfg :=
  { conf := c }

/-- A value held in the forwarder's table, an `interface{}`: its dynamic type is
either `*Client` or `Config`. -/
inductive Value (Cfg : Type) where
  | client (c : Client Cfg)
  | config (c : Cfg)
  deriving DecidableEq, Repr

/-- The type assertion `obj.(*Client)` on a value read from the table (`none` is
the nil interface): `none` when it fails, which in Go is a panic. -/
def assertClient : Option (Value Cfg) → Option (Client Cfg)
  | some (.client c) => some c
  | _ => none

/-- Observable effects of the forwarder stage. -/
inductive Effect (Cfg Pd : Type) where
  | newClient (c : Cfg)
  | logError (e : GoError)
  | forwardTraces (client : Client Cfg) (pd : Pd)
  | stop (client : Client Cfg)
  deriving DecidableEq, Repr

/-- The collaborators of the stage.  `Decode` is `mapstructure.Decode` into a
`Config`; `ForwardTraces` and `Stop` are the methods of `*Client`, whose result
may depend on everything that happened before (the trace so far). -/
structure Env (Raw Cfg Pd : Type) where
  Decode : Raw → Except GoError Cfg
  ForwardTraces : List (Effect Cfg Pd) → Client Cfg → Pd → Option GoError
  Stop : List (Effect Cfg Pd) → Client Cfg → Option GoError

/-- The struct `processor.SubConfigProcessor`: one tenant override, with its raw
configuration `Config.Config`; the field `Type` is spelled `Typ`. -/
structure SubConfigProcessor (Raw : Type) where
  Token : String
  Typ : String
  ID : String
  Config : Raw
  deriving DecidableEq, Repr

/-- The embedded `processor.CommonProcessor`, as built by `NewCommonProcessor`. -/
structure CommonProcessor (Raw : Type) where
  mainConfig : Raw
  subConfigs : List (SubConfigProcessor Raw)
  deriving DecidableEq, Repr

/-- The struct `forwarder`. -/
structure forwarder (Raw Cfg : Type) where
  CommonProcessor : CommonProcessor Raw
  clients : TierConfig (Value Cfg)
  deriving DecidableEq, Repr

/-- The loop of `newFactory` over `customized`: an override that does not decode is
logged and skipped (`continue`), one that decodes is stored with `clients.Set`,
the stored value being the decoded `Config` itself (`*cfg`). -/
def installOverrides (env : Env Raw Cfg Pd) :
    List (SubConfigProcessor Raw) → TierConfig (Value Cfg) → List (Effect Cfg Pd) →
      TierConfig (Value Cfg) × List (Effect Cfg Pd)
  | [], clients, eff => (clients, eff)
  | custom :: rest, clients, eff =>
    match env.Decode custom.Config with
    | .error err => installOverrides env rest clients (eff ++ [.logError err])
    | .ok cfg =>
      installOverrides env rest (clients.Set custom.Token custom.Typ custom.ID (.config cfg)) eff

/-- The function `newFactory`: its effects and its pair of results
(`*forwarder`, `error`) as an `Except`. -/
def newFactory (env : Env Raw Cfg Pd) (conf : Raw) (customized : List (SubConfigProcessor Raw)) :
    List (Effect Cfg Pd) × Except GoError (forwarder Raw Cfg) :=
  match env.Decode conf with
  | .error err => ([], .error err)
  | .ok c =>
    let clients := (TierConfig.NewTierConfig).SetGlobal (Value.client (NewClient c))
    let r := installOverrides env customized clients [.newClient c]
    (r.2, .ok { CommonProcessor := { mainConfig := conf, subConfigs := customized },
                clients := r.1 })

/-- The function `NewFactory`, which only forwards to `newFactory`. -/
def NewFactory (env : Env Raw Cfg Pd) (conf : Raw) (customized : List (SubConfigProcessor Raw)) :
    List (Effect Cfg Pd) × Except GoError (forwarder Raw Cfg) :=
  newFactory env conf customized

/-- The method `forwarder.Process`, run after the trace `hist`.  The result pairs the
output record with the error.  The two type assertions panic when they fail. -/
def forwarder.Process (env : Env Raw Cfg Pd) (hist : List (Effect Cfg Pd))
    (p : forwarder Raw Cfg) (record : Record Pd) :
    Run (Effect Cfg Pd) (Option (Record Pd) × Option GoError) :=
  match assertClient (p.clients.GetByToken record.Token.Original) with
  | none => { effects := [], result := none }
  | some client =>
    match record.RecordType with
    | .RecordTraces =>
      match record.Data with
      | .traces pdTraces =>
        match env.ForwardTraces hist client pdTraces with
        | some err =>
          { effects := [.forwardTraces client pdTraces], result := some (none, some err) }
        | none =>
          { effects := [.forwardTraces client pdTraces],
            result := some (none, some GoError.ErrEndOfPipeline) }
      | _ => { effects := [], result := none }
    | _ => { effects := [], result := some (none, some GoError.ErrEndOfPipeline) }

/-- The loop of `forwarder.Clean` over `clients.All()`; `eff` are the effects of the
iterations already done.  A failed type assertion panics and abandons the rest;
a `Stop` error is logged and the loop goes on. -/
def cleanLoop (env : Env Raw Cfg Pd) (hist : List (Effect Cfg Pd)) :
    List (Value Cfg) → List (Effect Cfg Pd) → Run (Effect Cfg Pd) Unit
  | [], eff => { effects := eff, result := some () }
  | .client c :: rest, eff =>
    match env.Stop (hist ++ eff) c with
    | some err => cleanLoop env hist rest (eff ++ [.stop c, .logError err])
    | none => cleanLoop env hist rest (eff ++ [.stop c])
  | .config _ :: _, eff => { effects := eff, result := none }

/-- The method `forwarder.Clean`, run after the trace `hist`; `order` is the order in
which this call of `clients.All()` returns the values. -/
def forwarder.Clean (env : Env Raw Cfg Pd) (hist : List (Effect Cfg Pd))
    (order : IterOrder (Value Cfg)) (p : forwarder Raw Cfg) : Run (Effect Cfg Pd) Unit :=
  cleanLoop env hist (p.clients.All order) []

/-- The clients on which `Stop` was invoked, in order, one entry per invocation. -/
def stopped : List (Effect Cfg Pd) → List (Client Cfg)
  | [] => []
  | .stop c :: rest => c :: stopped rest
  | _ :: rest => stopped rest

/-- The forward calls of a trace, in order: client and payload. -/
def forwarded : List (Effect Cfg Pd) → List (Client Cfg × Pd)
  | [] => []
  | .forwardTraces c pd :: rest => (c, pd) :: forwarded rest
  | _ :: rest => forwarded rest

end Forwarder

/-! ## SkyWalking HTTP segment endpoints -/

section Skywalking

variable {Pd : Type}

/-- The type `define.StatusCode`: the HTTP-style outcome vocabulary of the gate. -/
abbrev StatusCode := Nat

/-- The constant `define.StatusCodeOK`. -/
def StatusCodeOK : StatusCode := 200

/-- The constant `define.StatusCodeBadRequest`. -/
def StatusCodeBadRequest : StatusCode := 400

/-- The constant `define.StatusCodeTooManyRequests`. -/
def StatusCodeTooManyRequests : StatusCode := 429

/-- The constant `http.StatusInternalServerError`. -/
def StatusInternalServerError : StatusCode := 500

/-- An incoming request: its body, `none` when reading the body fails. -/
structure HttpRequest where
  body : Option String
  deriving DecidableEq, Repr

/-- The struct `HttpService`: the function behind `pipeline.Validator` (the admission
gate); the `receiver.Publisher` is the list of published records in `HttpResult`. -/
structure HttpService (Pd : Type) where
  Validator : Record Pd → StatusCode × String × Option GoError

/-- What a handler did: the status code written to the response and the records
handed to the Publisher, in order. -/
structure HttpResult (Pd : Type) where
  code : StatusCode
  published : List (Record Pd)
  deriving DecidableEq, Repr

/-- Modelled from the spec: the body of the SkyWalking handlers (`http.go` is not among
the sources, only its test).  The ingress adapter decodes the wire bytes, builds
the Record, the admission gate evaluates it; on reject (a status other than OK)
the Sink is not invoked and the status is reported back as the response code;
on accept the Record is handed to the Publisher.  An unreadable body answers
500 and an undecodable one 400, as the tests of the handlers expect. -/
def handleSegmentRequest (decode : String → Option (Record Pd)) (svc : HttpService Pd)
    (req : HttpRequest) : HttpResult Pd :=
  match req.body with
  | none => { code := StatusInternalServerError, published := [] }
  | some buf =>
    match decode buf with
    | none => { code := StatusCodeBadRequest, published := [] }
    | some record =>
      if (svc.Validator record).1 ≠ StatusCodeOK then
        { code := (svc.Validator record).1, published := [] }
      else
        { code := StatusCodeOK, published := [record] }

/-- Modelled from the spec: the handler `reportV3Segments` (`POST /v3/segments`), with
the decoder of a segment list as parameter. -/
def HttpService.reportV3Segments (svc : HttpService Pd)
    (decodeSegments : String → Option (Record Pd)) (req : HttpRequest) : HttpResult Pd :=
  handleSegmentRequest decodeSegments svc req

/-- Modelled from the spec: the handler `reportV3Segment` (`POST /v3/segment`), with the
decoder of a single segment as parameter. -/
def HttpService.reportV3Segment (svc : HttpService Pd)
    (decodeSegment : String → Option (Record Pd)) (req : HttpRequest) : HttpResult Pd :=
  handleSegmentRequest decodeSegment svc req

end Skywalking

end Collector

/-! ## GSE output (`pkg/libgse/output/gse/gse.go`) -/

namespace Gse

open Collector (GoError)

/-- A dynamically typed Go value (`interface{}`) as found in the fields of an event:
a signed integer kind (`int`, `int8`, `int16`, `int32`, `int64`) with its value,
an unsigned integer kind with its value, a string, or a value of any other
dynamic type, identified by a description. -/
inductive GoValue where
  | int (v : Int)
  | uint (v : Nat)
  | str (s : String)
  | obj (desc : String)
  deriving DecidableEq, Repr

/-- The type `common.MapStr`, a `map[string]interface{}`, as an association list with
at most one entry per key. -/
abbrev MapStr := List (String × GoValue)

/-- The map read `m[key]` with its presence flag; also `GetValue` and `HasKey` for a
key without dots. -/
def MapStr.get (m : MapStr) (key : String) : Option GoValue :=
  List.lookup key m

/-- The map write `m[key] = v`; also `Put` for a key without dots. -/
def MapStr.set (m : MapStr) (key : String) (v : GoValue) : MapStr :=
  m.filter (fun kv => decide (kv.1 ≠ key)) ++ [(key, v)]

/-- The call `m.Delete(key)` for a key without dots. -/
def MapStr.delete (m : MapStr) (key : String) : MapStr :=
  m.filter (fun kv => decide (kv.1 ≠ key))

/-- The Go conversion `int32(x)` of a 64-bit integer: reduction modulo 2^32 into the
signed range. -/
def toInt32 (z : Int) : Int :=
  (z + 2 ^ 31) % 2 ^ 32 - 2 ^ 31

/-- The two errors of `strconv`: `ErrSyntax` and `ErrRange`. -/
inductive NumError where
  | ErrSyntax
  | ErrRange
  deriving DecidableEq, Repr

/-- The digit loop of `strconv.ParseUint` in base 10 (no underscores outside base 0):
a byte that is not a decimal digit is a syntax error, a value above `maxVal` a
range error returning `maxVal`. -/
def parseUintLoop (maxVal : Nat) : List Char → Nat → Nat × Option NumError
  | [], n => (n, none)
  | c :: cs, n =>
    if '0' ≤ c ∧ c ≤ '9' then
      if n * 10 + (c.toNat - '0'.toNat) > maxVal then (maxVal, some .ErrRange)
      else parseUintLoop maxVal cs (n * 10 + (c.toNat - '0'.toNat))
    else (0, some .ErrSyntax)

/-- The function `strconv.ParseUint(s, 10, bitSize)`. -/
def ParseUint (s : List Char) (bitSize : Nat) : Nat × Option NumError :=
  match s with
  | [] => (0, some .ErrSyntax)
  | _ => parseUintLoop (2 ^ bitSize - 1) s 0

/-- The function `strconv.ParseInt(s, 10, bitSize)`: optional sign, then `ParseUint`,
then the check against the signed range. -/
def ParseInt (s : String) (bitSize : Nat) : Int × Option NumError :=
  match s.toList with
  | [] => (0, some .ErrSyntax)
  | c :: cs =>
    let neg := decide (c = '-')
    let rest := if c = '+' ∨ c = '-' then cs else c :: cs
    match ParseUint rest bitSize with
    | (_, some .ErrSyntax) => (0, some .ErrSyntax)
    | (un, _) =>
      let cutoff : Nat := 2 ^ (bitSize - 1)
      if !neg && decide (un ≥ cutoff) then ((cutoff : Int) - 1, some .ErrRange)
      else if neg && decide (un > cutoff) then (-(cutoff : Int), some .ErrRange)
      else (if neg then -(un : Int) else (un : Int), none)

/-- The method `Output.getdataid`. -/
def getdataid (dataID : GoValue) : Int :=
  match dataID with
  | .int v => toInt32 v
  | .uint v => toInt32 (v : Int)
  | .str s =>
    match ParseInt s 32 with
    | (_, some _) => -1
    | (dataid, none) => toInt32 dataid
  | .obj _ => 0

/-- The struct `gse.AgentInfo`, with the fields the output reads. -/
structure AgentInfo where
  Bizid : Int
  BKBizID : Int
  Cloudid : Int
  IP : String
  Hostname : String
  BKAgentID : String
  HostID : Int
  deriving DecidableEq, Repr

/-- A message handed to the GSE client: `gse.NewGseDynamicMsg(buf, dataid, 0, 0)`. -/
structure GseMsg where
  buf : String
  dataid : Int
  deriving DecidableEq, Repr

/-- The monitoring counters the output increments.  The two per-dataid counters
(`monitoring.NewIntWithDataID`) keep one entry, the dataid, per increment. -/
structure Metrics where
  metricGseAgentInfoFailed : Nat
  metricGseSendTotal : Nat
  metricGsePublishReceived : Nat
  metricGsePublishDropped : Nat
  metricGsePublishTotal : Nat
  metricGsePublishFailed : Nat
  metricGseTaskPublishTotal : List Int
  metricGseTaskPublishFailed : List Int
  deriving DecidableEq, Repr

/-- Everything the output changes: the counters, the key/value store behind
`storage.Get` and `storage.Set`, the messages given to `cli.Send` in order, the
sizes passed to the send hook, and the number of acknowledged batches. -/
structure GseState where
  metrics : Metrics
  storage : List (String × String)
  sent : List GseMsg
  hooked : List Nat
  acked : Nat
  deriving DecidableEq, Repr

/-- The collaborators of the output: the agent info fetcher `c.aif.Fetch` (its error
is ignored by the callers), `AgentInfo.IsEmpty`, the variable `MarshalFunc`, and
whether a send hook is registered. -/
structure GseEnv where
  Fetch : GseState → AgentInfo
  IsEmpty : AgentInfo → Bool
  MarshalFunc : MapStr → Except GoError String
  sendHook : Bool

/-- The function `String(n int32)`, decimal rendering with a leading minus sign
(named `String32`, the name `String` being the type of strings). -/
def String32 (n : Int) : String :=
  (if n < 0 then "-" else "") ++ String.mk (Nat.toDigits 10 n.natAbs)

/-- The function `getGseIndex`: read the stored index of the dataid (0 when absent or
unparsable), increment it as a `uint64`, store it back. -/
def getGseIndex (st : GseState) (dataid : Int) : Nat × GseState :=
  let gseIndexKey := "gseindex_" ++ String32 dataid
  let index : Nat :=
    match List.lookup gseIndexKey st.storage with
    | some indexStr =>
      match ParseUint indexStr.toList 64 with
      | (v, none) => v
      | (_, some _) => 0
    | none => 0
  let index := (index + 1) % 2 ^ 64
  (index, { st with storage := st.storage.filter (fun kv => decide (kv.1 ≠ gseIndexKey))
                                 ++ [(gseIndexKey, toString index)] })

/-- The method `Output.reportCommonData`: marshal, call the send hook, send, count. -/
def reportCommonData (env : GseEnv) (st : GseState) (dataid : Int) (data : MapStr) :
    Option GoError × GseState :=
  match env.MarshalFunc data with
  | .error err =>
    (some err, { st with metrics := { st.metrics with
        metricGseTaskPublishFailed := st.metrics.metricGseTaskPublishFailed ++ [dataid] } })
  | .ok buf =>
    (none, { st with
      hooked := if env.sendHook then st.hooked ++ [buf.utf8ByteSize] else st.hooked
      sent := st.sent ++ [{ buf := buf, dataid := dataid }]
      metrics := { st.metrics with
        metricGseSendTotal := st.metrics.metricGseSendTotal + 1
        metricGseTaskPublishTotal := st.metrics.metricGseTaskPublishTotal ++ [dataid] } })

/-- The method `Output.publishEventAttachInfo`.  The third component is the map
`data` after the call (the Go map is mutated in place). -/
def publishEventAttachInfo (env : GseEnv) (st : GseState) (dataid : Int) (data : MapStr) :
    Option GoError × GseState × MapStr :=
  let isStandardFormat := (data.get "_time_").isNone
  let r : Nat × GseState :=
    if (data.get "gseindex").isNone then getGseIndex st dataid else (0, st)
  let gseIndex := r.1
  let st1 := r.2
  let info := env.Fetch st1
  if env.IsEmpty info then
    (some (.other "agent info is empty"),
      { st1 with metrics := { st1.metrics with
          metricGseAgentInfoFailed := st1.metrics.metricGseAgentInfoFailed + 1 } },
      data)
  else
    let data1 : MapStr :=
      if isStandardFormat then
        let d := data.set "bizid" (.int info.Bizid)
        let d := if (d.get "bk_biz_id").isNone then d.set "bk_biz_id" (.int info.BKBizID) else d
        let d := d.set "cloudid" (.int info.Cloudid)
        let d := d.set "ip" (.str info.IP)
        let d := d.set "hostname" (.str info.Hostname)
        let d := d.set "gseindex" (.uint gseIndex)
        let d := d.set "bk_agent_id" (.str info.BKAgentID)
        d.set "bk_host_id" (.int info.HostID)
      else
        let d := data.set "_bizid_" (.int info.Bizid)
        let d := d.set "_cloudid_" (.int info.Cloudid)
        let d := d.set "_server_" (.str info.IP)
        let d := d.set "_gseindex_" (.uint gseIndex)
        let d := d.set "_agentid_" (.str info.BKAgentID)
        let d := d.set "_hostid_" (.int info.HostID)
        let d := d.delete "dataid"
        d.delete "time"
    let r2 := reportCommonData env st1 dataid data1
    (r2.1, r2.2, data1)

/-- The content of a `publisher.Event`: `Fields` (`none` is the nil map) and `Meta`
(`none` is nil, otherwise a description of the meta map). -/
structure Event where
  Fields : Option MapStr
  Meta : Option String
  deriving DecidableEq, Repr

/-- The method `Output.PublishEvent`.  The third component is the map of the event's
fields after the call. -/
def PublishEvent (env : GseEnv) (st : GseState) (event : Event) :
    Option GoError × GseState × Option MapStr :=
  match event.Fields with
  | none => (some (.other "event lost dataid"), st, none)
  | some data =>
    match data.get "dataid" with
    | none => (some (.other "event lost dataid"), st, some data)
    | some val =>
      let dataid := getdataid val
      if dataid ≤ 0 then
        (some (.other ("dataid " ++ String32 dataid ++ " <= 0")), st, some data)
      else
        let data1 :=
          match event.Meta with
          | some m => data.set "@meta" (.obj m)
          | none => data
        let r := publishEventAttachInfo env st dataid data1
        (r.1, r.2.1, some r.2.2)

/-- The loop of `Output.Publish` over the events of the batch. -/
def publishLoop (env : GseEnv) : List Event → GseState → GseState
  | [], st => st
  | ev :: rest, st =>
    match ev.Fields with
    | none =>
      publishLoop env rest { st with metrics := { st.metrics with
        metricGsePublishDropped := st.metrics.metricGsePublishDropped + 1 } }
    | some _ =>
      let st1 := { st with metrics := { st.metrics with
        metricGsePublishReceived := st.metrics.metricGsePublishReceived + 1 } }
      let r := PublishEvent env st1 ev
      match r.1 with
      | some _ =>
        publishLoop env rest { r.2.1 with metrics := { r.2.1.metrics with
          metricGsePublishFailed := r.2.1.metrics.metricGsePublishFailed + 1 } }
      | none =>
        publishLoop env rest { r.2.1 with metrics := { r.2.1.metrics with
          metricGsePublishTotal := r.2.1.metrics.metricGsePublishTotal + 1 } }

/-- The method `Output.Publish`: publish every event, acknowledge the batch, return nil. -/
def Publish (env : GseEnv) (st : GseState) (events : List Event) : Option GoError × GseState :=
  let st1 := publishLoop env events st
  (none, { st1 with acked := st1.acked + 1 })

end Gse

/-! ## Auxiliary definitions for the statements -/

namespace Collector

section Aux

variable {Raw Cfg Pd : Type}

/-- The clients at the head of a list of table values, up to the first value that is
not a `*Client`. -/
def clientPrefix : List (Value Cfg) → List (Client Cfg)
  | .client c :: rest => c :: clientPrefix rest
  | _ => []

/-- Whether a table value has dynamic type `*Client`. -/
def Value.isClient : Value Cfg → Bool
  | .client _ => true
  | .config _ => false

/-- The entries of `customized` whose configuration decodes, in order, each with its
key (Token, Type, ID) and its decoded configuration. -/
def decodedOverrides (env : Env Raw Cfg Pd) : List (SubConfigProcessor Raw) → List (TierKey × Cfg)
  | [] => []
  | custom :: rest =>
    match env.Decode custom.Config with
    | .ok cfg => (⟨custom.Token, custom.Typ, custom.ID⟩, cfg) :: decodedOverrides env rest
    | .error _ => decodedOverrides env rest

/-- The configuration of the last entry with key `k` in a list of keyed entries. -/
def lastFor (k : TierKey) (l : List (TierKey × Cfg)) : Option Cfg :=
  ((l.filter (fun kv => decide (kv.1 = k))).getLast?).map Prod.snd

/-- An environment for the worked examples: a raw configuration is `some n` (decoding
to `n`) or `none` (not decodable); forwarding and stopping fail exactly for the
client built from configuration 0. -/
def demoEnv : Env (Option Nat) Nat String where
  Decode := fun raw =>
    match raw with
    | some n => .ok n
    | none => .error (.other "decode")
  ForwardTraces := fun _ c _ => if c.conf = 0 then some (.other "forward failed") else none
  Stop := fun _ c => if c.conf = 0 then some (.other "stop failed") else none

/-- The forwarder `newFactory` builds in `demoEnv` from main configuration 1 and one
override for token "t" with configuration 2. -/
def demoForwarder : forwarder (Option Nat) Nat :=
  { CommonProcessor := { mainConfig := some 1, subConfigs := [⟨"t", "", "", some 2⟩] },
    clients := { global := some (.client ⟨1⟩), subs := [(⟨"t", "", ""⟩, .config 2)] } }

/-- The forwarder `newFactory` builds in `demoEnv` from main configuration 1 and no
override. -/
def plainForwarder : forwarder (Option Nat) Nat :=
  { CommonProcessor := { mainConfig := some 1, subConfigs := [] },
    clients := { global := some (.client ⟨1⟩), subs := [] } }

/-- A forwarder whose table holds two clients: the global one, built from configuration
1, and one for token "t", built from configuration 0, whose `Stop` fails in
`demoEnv`. -/
def twoClientForwarder : forwarder (Option Nat) Nat :=
  { CommonProcessor := { mainConfig := some 1, subConfigs := [] },
    clients := { global := some (.client ⟨1⟩), subs := [(⟨"t", "", ""⟩, .client ⟨0⟩)] } }

end Aux

end Collector

namespace Collector

/-- A service for the worked examples whose gate rejects every record with status 429,
as in the tests of the handlers. -/
def busyService : HttpService String :=
  { Validator := fun _ => (StatusCodeTooManyRequests, "", some (.other "too many requests")) }

/-- A decoder for the worked examples: the body "{-}" does not decode, any other body
decodes to a traces record carrying it. -/
def demoDecode (buf : String) : Option (Record String) :=
  if buf = "{-}" then none
  else some { RecordType := .RecordTraces, Token := ⟨"token1"⟩, Data := .traces buf }

end Collector

namespace Gse

/-- The value under the key "dataid" in the fields of an event, if any. -/
def eventDataid (event : Event) : Option GoValue :=
  match event.Fields with
  | none => none
  | some data => data.get "dataid"

/-- The map `PublishEvent` hands to `publishEventAttachInfo`: the fields, with the meta
information under "@meta" when the event has some. -/
def withMeta (data : MapStr) : Option String → MapStr
  | some m => data.set "@meta" (.obj m)
  | none => data

/-- An environment for the worked examples: a fixed non-empty agent info, marshalling
that always succeeds, no send hook. -/
def demoGseEnv : GseEnv :=
  { Fetch := fun _ => ⟨2, 3, 0, "10.0.0.1", "host", "agent", 7⟩
    IsEmpty := fun info => info.IP == ""
    MarshalFunc := fun m => .ok (toString m.length)
    sendHook := false }

/-- The initial state: all counters zero, nothing stored, nothing sent. -/
def emptyState : GseState :=
  { metrics := ⟨0, 0, 0, 0, 0, 0, [], []⟩, storage := [], sent := [], hooked := [], acked := 0 }

end Gse

namespace Gse

open Collector (GoError)

/-- The struct `agentInfoLoader`: `once` tells whether the `sync.Once` has fired, `fetch`
is the stored function (`none` is the nil func).  A fetch function reads the
agent info from the outside world `W`. -/
structure agentInfoLoader (W : Type) where
  once : Bool
  fetch : Option (W → AgentInfo × Option GoError)

/-- The method `agentInfoLoader.Init`: `once.Do` runs the assignment on the first call
only. -/
def agentInfoLoader.Init {W : Type} (ail : agentInfoLoader W)
    (fn : Option (W → AgentInfo × Option GoError)) : agentInfoLoader W :=
  if ail.once then ail else { once := true, fetch := fn }

/-- The method `agentInfoLoader.Fetch`: the stored function if there is one, else the
zero `AgentInfo` and an error. -/
def agentInfoLoader.Fetch {W : Type} (ail : agentInfoLoader W) (w : W) :
    AgentInfo × Option GoError :=
  match ail.fetch with
  | some fetch => fetch w
  | none => (⟨0, 0, 0, "", "", "", 0⟩, some (.other "no agentInfo fetcher found"))

/-- The package variable `ail = &agentInfoLoader{}`. -/
def ail {W : Type} : agentInfoLoader W :=
  { once := false, fetch := none }

/-- The calls `Init(f1)`, ..., `Init(fn)` in order on a loader. -/
def initAll {W : Type} (l : agentInfoLoader W) :
    List (Option (W → AgentInfo × Option GoError)) → agentInfoLoader W
  | [] => l
  | fn :: rest => initAll (l.Init fn) rest

/-- The state in which `publishEventAttachInfo` fetches the agent info: after
`getGseIndex` when the data has no "gseindex" key, the given state otherwise. -/
def attachState (st : GseState) (dataid : Int) (data : MapStr) : GseState :=
  if (data.get "gseindex").isNone then (getGseIndex st dataid).2 else st

/-- The number of events of a batch whose `Fields` is nil. -/
def countNilFields : List Event → Nat
  | [] => 0
  | ev :: rest => (if ev.Fields.isNone then 1 else 0) + countNilFields rest

/-- The number of events of a batch that have no "dataid" field. -/
def countNoDataid : List Event → Nat
  | [] => 0
  | ev :: rest => (if (eventDataid ev).isNone then 1 else 0) + countNoDataid rest

end Gse

/-! ## FTA alert transform (`pkg/transfer/template/etl/fta/fta_alert.go`) -/

namespace Fta

/-- Errors of the transfer package, identified by their message. -/
structure TError where
  msg : String
  deriving DecidableEq, Repr

/-- The wrapper `errors.WithMessagef(err, msg)`, whose message is `msg: err`. -/
def WithMessage (err : TError) (msg : String) : TError :=
  { msg := msg ++ ": " ++ err.msg }

/-- A decoded value (`interface{}`): nil, a string, a number, a list, or a map with
string keys. -/
inductive Val where
  | null
  | str (s : String)
  | num (n : Int)
  | arr (items : List Val)
  | obj (fields : List (String × Val))
  deriving Repr

/-- An `etl.Container` backed by a map, as an association list with at most one entry
per key; also the map `data` that `etl.ContainerToMap` makes of it. -/
abbrev Container := List (String × Val)

/-- The method `Container.Get`: the value, or an error when the key is absent. -/
def Container.Get (c : Container) (key : String) : Except TError Val :=
  match List.lookup key c with
  | some v => .ok v
  | none => .error { msg := "item not found" }

/-- The method `Container.Put`, which on a map always succeeds. -/
def Container.Put (c : Container) (key : String) (v : Val) : Container :=
  c.filter (fun kv => decide (kv.1 ≠ key)) ++ [(key, v)]

/-- The constant `IngestTimeField`. -/
def IngestTimeField : String := "bk_ingest_time"

/-- The constant `CleanTimeField`. -/
def CleanTimeField : String := "bk_clean_time"

/-- The constant `TagsField`. -/
def TagsField : String := "tags"

/-- The constant `DefaultEventIDField`. -/
def DefaultEventIDField : String := "__bk_event_id__"

/-- The constant `EventIDField`. -/
def EventIDField : String := "event_id"

/-- The constant `AlertNameField`. -/
def AlertNameField : String := "alert_name"

/-- The constant `DefaultPluginIDField`. -/
def DefaultPluginIDField : String := "bk_plugin_id"

/-- The constant `PluginIDField`. -/
def PluginIDField : String := "plugin_id"

/-- One entry of a field extraction configuration: `{field, expr}`. -/
structure FieldExpr where
  Field : String
  Expr : String
  deriving DecidableEq, Repr

/-- A `map[string]string` from field name to expression, as an association list with at
most one entry per key. -/
abbrev ExprMap := List (String × String)

/-- The map read `m[key]` with its presence flag. -/
def ExprMap.get (m : ExprMap) (key : String) : Option String :=
  List.lookup key m

/-- The map write `m[key] = v`. -/
def ExprMap.set (m : ExprMap) (key : String) (v : String) : ExprMap :=
  m.filter (fun kv => decide (kv.1 ≠ key)) ++ [(key, v)]

/-- The loop of `convertToExprMap` over the decoded entries: an entry with an empty
expression is skipped, any other is written into the map. -/
def exprLoop : List FieldExpr → ExprMap → ExprMap
  | [], fieldExpr => fieldExpr
  | cfg :: rest, fieldExpr =>
    if cfg.Expr = "" then exprLoop rest fieldExpr
    else exprLoop rest (fieldExpr.set cfg.Field cfg.Expr)

/-- The function `convertToExprMap`, with `mapstructure.Decode` of the argument into the
list of entries as parameter.  The result is the pair (map, error); `none` is the
nil map. -/
def convertToExprMap {Raw : Type} (decode : Raw → Except TError (List FieldExpr)) (c : Raw) :
    Option ExprMap × Option TError :=
  match decode c with
  | .error err => (none, some (WithMessage err "decode expr config failed"))
  | .ok fields => (some (exprLoop fields []), none)

/-- The struct `Alert`: a trigger (of the type `T` of triggers) and the alert name. -/
structure Alert (T : Type) where
  Trigger : T
  Name : String
  deriving DecidableEq, Repr

/-- The struct `CleanConfig`.  `Alerts` is `none` for the nil slice; `Normalizations` is
kept as the raw value that `convertToExprMap` decodes. -/
structure CleanConfig (Raw T : Type) where
  Alerts : Option (List (Alert T))
  Normalizations : Raw
  Trigger : T
  deriving DecidableEq, Repr

/-- The struct `config.MetaFieldConfig`: the name of a result table field and its type. -/
structure MetaFieldConfig where
  FieldName : String
  Typ : String
  deriving DecidableEq, Repr

/-- The collaborators of the transform: `mapstructure.Decode` into field entries,
`Trigger.IsMatch`, `etl.TransformAutoTimeStamp`, the clean time stamp made from
`time.Now()`, the visitor `rt.VisitUserSpecifiedFields` (which runs a callback
that may write into the output), `utils.CompileJMESPathCustom` (its error, if
any), the search of a compiled expression in the data, the type transform
of `etl.NewTransformByField` (its value; its error is ignored by the code), and
the renderings that `fmt` gives an error and a container under the verb `%+v`. -/
structure FtaEnv (Raw T : Type) where
  DecodeFields : Raw → Except TError (List FieldExpr)
  IsMatch : T → Container → Bool
  TransformAutoTimeStamp : Val → Except TError Val
  CleanTime : Val
  VisitUserSpecifiedFields :
    (MetaFieldConfig → Container → Option TError × Container) → Container →
      Option TError × Container
  CompileJMESPathCustom : String → Option TError
  Search : String → Container → Except TError Val
  TransformByField : MetaFieldConfig → Val → Val
  FormatError : TError → String
  FormatContainer : Container → String

/-- The variables the transform closure of `NewAlertFTAProcessor` captures: the decoded
clean configs, the default alerts (`none` is nil) and the default expression map
(`none` is nil). -/
structure AlertFTAProcessor (Raw T : Type) where
  cleanConfigs : List (CleanConfig Raw T)
  defaultAlerts : Option (List (Alert T))
  defaultExprMap : Option ExprMap
  deriving DecidableEq, Repr

section Transform

variable {Raw T : Type}

/-- The loop over `cleanConfigs` that sets `matchedCleanConfig`: the first config whose
trigger matches, then `break`. -/
def matchedCleanConfig (env : FtaEnv Raw T) (data : Container) :
    List (CleanConfig Raw T) → Option (CleanConfig Raw T)
  | [] => none
  | cleanConfig :: rest =>
    if env.IsMatch cleanConfig.Trigger data then some cleanConfig
    else matchedCleanConfig env data rest

/-- The variable `alerts` after the selection: the matched config's alerts, replaced by
the default alerts when nil. -/
def selectAlerts (env : FtaEnv Raw T) (p : AlertFTAProcessor Raw T) (data : Container) :
    Option (List (Alert T)) :=
  let alerts : Option (List (Alert T)) :=
    match matchedCleanConfig env data p.cleanConfigs with
    | some matched => matched.Alerts
    | none => none
  match alerts with
  | some a => some a
  | none => p.defaultAlerts

/-- The variable `exprMap` after the selection: the map converted from the matched
config's normalizations (the conversion error is dropped), replaced by the
default expression map when nil. -/
def selectExprMap (env : FtaEnv Raw T) (p : AlertFTAProcessor Raw T) (data : Container) :
    Option ExprMap :=
  let exprMap : Option ExprMap :=
    match matchedCleanConfig env data p.cleanConfigs with
    | some matched => (convertToExprMap env.DecodeFields matched.Normalizations).1
    | none => none
  match exprMap with
  | some m => some m
  | none => p.defaultExprMap

/-- The read `exprMap[key]` on a map that may be nil. -/
def exprLookup (exprMap : Option ExprMap) (key : String) : Option String :=
  match exprMap with
  | some m => m.get key
  | none => none

/-- The callback given to `VisitUserSpecifiedFields`: extract one field by its
expression and write it into the output. -/
def extractField (env : FtaEnv Raw T) (exprMap : Option ExprMap) (data : Container)
    (config : MetaFieldConfig) (dst : Container) : Option TError × Container :=
  if config.FieldName = TagsField then (none, dst)
  else
    match exprLookup exprMap config.FieldName with
    | none => (none, dst)
    | some expr =>
      match env.CompileJMESPathCustom expr with
      | some err => (some (WithMessage err ("compile expr " ++ expr ++ " failed")), dst)
      | none =>
        match env.Search expr data with
        | .error err => (some (WithMessage err ("search expr " ++ expr ++ " failed")), dst)
        | .ok field => (none, dst.Put config.FieldName (env.TransformByField config field))

/-- The loop that sets the alert name: the first alert whose trigger matches writes its
name, then `break`. -/
def alertNameLoop (env : FtaEnv Raw T) (data : Container) :
    List (Alert T) → Container → Container
  | [], dst => dst
  | alert :: rest, dst =>
    if env.IsMatch alert.Trigger data then dst.Put AlertNameField (.str alert.Name)
    else alertNameLoop env data rest dst

/-- The test `eventID == nil || eventID == ""`. -/
def isNilOrEmpty : Val → Bool
  | .null => true
  | .str s => decide (s = "")
  | _ => false

/-- One item of a tags list in the format `[{"key": k, "value": v}]`: kept when it is a
map whose "key" and "value" are both present and not nil. -/
def tagOfItem : Val → Option Val
  | .obj mapItem =>
    match List.lookup "key" mapItem, List.lookup "value" mapItem with
    | some key, some value =>
      match key, value with
      | .null, _ => none
      | _, .null => none
      | k, v => some (.obj [("key", k), ("value", v)])
    | _, _ => none
  | _ => none

/-- The conversion of the extracted tags into the list `tagsList` (a map is listed in the
order of its entries). -/
def tagsList : Val → List Val
  | .obj t => t.map (fun kv => Val.obj [("key", .str kv.1), ("value", kv.2)])
  | .arr t => t.filterMap tagOfItem
  | _ => []

/-- The tail of the transform, after the alert name: the event id, then the tags. -/
def eventIDAndTags (env : FtaEnv Raw T) (exprMap : Option ExprMap) (src data : Container)
    (dst : Container) : Option TError × Container :=
  let eventID : Val :=
    match dst.Get EventIDField with
    | .ok v => v
    | .error _ => .null
  let r : Option TError × Container :=
    if isNilOrEmpty eventID then
      match src.Get DefaultEventIDField with
      | .error err =>
        (some { msg := "get key->(" ++ DefaultEventIDField ++ ") from data failed: "
            ++ env.FormatError err ++ ", origin data: " ++ env.FormatContainer src }, dst)
      | .ok v => (none, dst.Put EventIDField v)
    else (none, dst)
  match r.1 with
  | some err => (some err, r.2)
  | none =>
    match exprLookup exprMap TagsField with
    | none => (none, r.2)
    | some tagExpr =>
      match env.CompileJMESPathCustom tagExpr with
      | some err => (some (WithMessage err ("compile expr " ++ tagExpr ++ " failed")), r.2)
      | none =>
        match env.Search tagExpr data with
        | .error _ => (none, r.2)
        | .ok tags => (none, r.2.Put TagsField (.arr (tagsList tags)))

/-- The output after the default fields and the field extraction, given the converted
ingest time and the plugin id. -/
def afterExtraction (env : FtaEnv Raw T) (exprMap : Option ExprMap) (data : Container)
    (dst : Container) (stamp PluginID : Val) : Container :=
  (env.VisitUserSpecifiedFields (extractField env exprMap data)
    (((dst.Put IngestTimeField stamp).Put PluginIDField PluginID).Put
      CleanTimeField env.CleanTime)).2

/-- The body of the transform once `alerts` and `exprMap` are chosen.  `src` is the
container `from`, `dst` the output container `to`; the result is the returned error
and the output container as the call leaves it. -/
def transformWith (env : FtaEnv Raw T) (alerts : Option (List (Alert T)))
    (exprMap : Option ExprMap) (src dst : Container) : Option TError × Container :=
  let data := src
  let IngestTime : Val :=
    match src.Get IngestTimeField with
    | .ok v => v
    | .error _ => .null
  match env.TransformAutoTimeStamp IngestTime with
  | .error err => (some err, dst)
  | .ok stamp =>
    match src.Get DefaultPluginIDField with
    | .error err => (some err, dst.Put IngestTimeField stamp)
    | .ok PluginID =>
      let dst1 := afterExtraction env exprMap data dst stamp PluginID
      let dst2 := alertNameLoop env data (alerts.getD []) dst1
      eventIDAndTags env exprMap src data dst2

/-- The transform function that `NewAlertFTAProcessor` gives to the record processor. -/
def transform (env : FtaEnv Raw T) (p : AlertFTAProcessor Raw T) (src dst : Container) :
    Option TError × Container :=
  transformWith env (selectAlerts env p src) (selectExprMap env p src) src dst

/-- The last non-empty expression configured for a field in a list of entries. -/
def lastExpr (f : String) (fields : List FieldExpr) : Option String :=
  ((fields.filter (fun e => decide (e.Field = f ∧ e.Expr ≠ ""))).getLast?).map FieldExpr.Expr

/-- A visitor that calls the callback on each field of a list, in order, and stops at
the first error. -/
def visitInOrder : List MetaFieldConfig →
    (MetaFieldConfig → Container → Option TError × Container) → Container →
      Option TError × Container
  | [], _, dst => (none, dst)
  | f :: rest, cb, dst =>
    match cb f dst with
    | (some err, dst1) => (some err, dst1)
    | (none, dst1) => visitInOrder rest cb dst1

/-- An environment for the worked examples: a trigger is the value required of the field
"alarm_type"; an expression is the name of a top-level field of the data; the
result table has the user fields "alert_name" and "description". -/
def demoFtaEnv : FtaEnv (List FieldExpr) String where
  DecodeFields := fun raw => .ok raw
  IsMatch := fun trigger data =>
    match List.lookup "alarm_type" data with
    | some (.str s) => decide (s = trigger)
    | _ => false
  TransformAutoTimeStamp := fun v => .ok v
  CleanTime := .num 0
  VisitUserSpecifiedFields := visitInOrder [⟨"alert_name", "string"⟩, ⟨"description", "string"⟩]
  CompileJMESPathCustom := fun _ => none
  Search := fun expr data =>
    match List.lookup expr data with
    | some v => .ok v
    | none => .ok .null
  TransformByField := fun _ v => v
  FormatError := fun err => err.msg
  FormatContainer := fun c => toString (c.map Prod.fst)

/-- A processor for the worked examples: no clean config, two default alerts for the
alarm type "cpu", and a default expression map that extracts "alert_name" from
the field "alarm_type". -/
def demoProcessor : AlertFTAProcessor (List FieldExpr) String :=
  { cleanConfigs := []
    defaultAlerts := some [⟨"cpu", "CPU usage"⟩, ⟨"cpu", "CPU again"⟩]
    defaultExprMap := some [("alert_name", "alarm_type")] }

end Transform

end Fta

/-! ## Theorems: forwarder -/

namespace Collector

section ForwarderTheorems

variable {Raw Cfg Pd : Type}

theorem stopped_append (a b : List (Effect Cfg Pd)) :
    stopped (a ++ b) = stopped a ++ stopped b := by
  induction a with
  | nil => rfl
  | cons e rest ih => cases e <;> simp [stopped, ih]

theorem forwarded_append (a b : List (Effect Cfg Pd)) :
    forwarded (a ++ b) = forwarded a ++ forwarded b := by
  induction a with
  | nil => rfl
  | cons e rest ih => cases e <;> simp [forwarded, ih]

/-- The clients stopped by the loop of `Clean` are those of the client prefix of the
values, whatever `Stop` returns and whatever happened before. -/
theorem cleanLoop_stopped (env : Env Raw Cfg Pd) (hist : List (Effect Cfg Pd))
    (vs : List (Value Cfg)) (eff : List (Effect Cfg Pd)) :
    stopped (cleanLoop env hist vs eff).effects = stopped eff ++ clientPrefix vs := by
  induction vs generalizing eff with
  | nil => simp [cleanLoop, clientPrefix]
  | cons v rest ih =>
    cases v with
    | client c =>
      simp only [cleanLoop, clientPrefix]
      cases env.Stop (hist ++ eff) c <;> simp [ih, stopped_append, stopped]
    | config c => simp [cleanLoop, clientPrefix]

/-- The loop of `Clean` completes exactly when every value is a `*Client`. -/
theorem cleanLoop_result (env : Env Raw Cfg Pd) (hist : List (Effect Cfg Pd))
    (vs : List (Value Cfg)) (eff : List (Effect Cfg Pd)) :
    (cleanLoop env hist vs eff).result = if vs.all Value.isClient then some () else none := by
  induction vs generalizing eff with
  | nil => simp [cleanLoop]
  | cons v rest ih =>
    cases v with
    | client c =>
      simp only [cleanLoop, List.all_cons, Value.isClient, Bool.true_and]
      cases env.Stop (hist ++ eff) c <;> simp [ih]
    | config c => simp [cleanLoop, Value.isClient]

/-- Whether every value is a `*Client` does not depend on the order of the values. -/
theorem all_isClient_of_perm (l1 l2 : List (Value Cfg)) (h : l1.Perm l2) :
    l1.all Value.isClient = l2.all Value.isClient := by
  rw [Bool.eq_iff_iff, List.all_eq_true, List.all_eq_true]
  constructor
  · intro h1 x hx
    exact h1 x (h.mem_iff.mpr hx)
  · intro h1 x hx
    exact h1 x (h.mem_iff.mp hx)

/-- A client of the client prefix of a list of values is one of the values. -/
theorem mem_of_mem_clientPrefix (vs : List (Value Cfg)) (c : Client Cfg)
    (h : c ∈ clientPrefix vs) : Value.client c ∈ vs := by
  induction vs with
  | nil => simp [clientPrefix] at h
  | cons v rest ih =>
    cases v with
    | client c0 =>
      simp only [clientPrefix, List.mem_cons] at h
      rcases h with h | h
      · subst h
        exact List.mem_cons_self _ _
      · exact List.mem_cons_of_mem _ (ih h)
    | config c0 => simp [clientPrefix] at h

/-- When every value is a `*Client`, the client prefix is the whole list. -/
theorem clientPrefix_of_all (vs : List (Value Cfg)) (h : vs.all Value.isClient = true) :
    (clientPrefix vs).map Value.client = vs := by
  induction vs with
  | nil => rfl
  | cons v rest ih =>
    cases v with
    | client c =>
      simp only [List.all_cons, Value.isClient, Bool.true_and] at h
      simp [clientPrefix, ih h]
    | config c => simp [Value.isClient] at h

/-- Whether `Clean` completes depends on the installed values only, not on the order in
which `All()` returns them: it completes exactly when every one is a `*Client`. -/
theorem Clean_result (env : Env Raw Cfg Pd) (hist : List (Effect Cfg Pd))
    (order : IterOrder (Value Cfg)) (p : forwarder Raw Cfg) :
    (p.Clean env hist order).result
      = if p.clients.installed.all Value.isClient then some () else none := by
  simp only [forwarder.Clean, cleanLoop_result, TierConfig.All]
  rw [all_isClient_of_perm _ _ (order.perm p.clients.installed)]

/-- When the table entry resolved for the record's token is a `*Client` and the record
is well typed, `Process` returns a nil record and a non-nil error: the forward
error if the forward call failed, the end-of-pipeline sentinel otherwise. -/
theorem Process_of_client (env : Env Raw Cfg Pd) (hist : List (Effect Cfg Pd))
    (p : forwarder Raw Cfg) (record : Record Pd) (client : Client Cfg)
    (hc : p.clients.GetByToken record.Token.Original = some (.client client))
    (hw : record.WellTyped) :
    ∃ err, (p.Process env hist record).result = some (none, some err) ∧
      (∀ pd, record.Data = .traces pd → env.ForwardTraces hist client pd = none →
        err = .ErrEndOfPipeline) ∧
      (∀ pd e, record.Data = .traces pd → env.ForwardTraces hist client pd = some e →
        err = e) ∧
      (record.RecordType ≠ .RecordTraces → err = .ErrEndOfPipeline) := by
  obtain ⟨rt, tok, data⟩ := record
  simp only at hc
  cases rt <;> cases data <;> simp [Record.WellTyped] at hw
  · rename_i pd
    cases hf : env.ForwardTraces hist client pd with
    | none =>
      refine ⟨.ErrEndOfPipeline, ?_, ?_, ?_, ?_⟩
      · simp [forwarder.Process, hc, assertClient, hf]
      · intros; rfl
      · intro pd2 e h1 h2
        cases h1
        rw [hf] at h2
        cases h2
      · intro h; exact absurd rfl h
    | some e0 =>
      refine ⟨e0, ?_, ?_, ?_, ?_⟩
      · simp [forwarder.Process, hc, assertClient, hf]
      · intro pd2 h1 h2
        cases h1
        rw [hf] at h2
        cases h2
      · intro pd2 e h1 h2
        cases h1
        rw [hf] at h2
        cases h2
        rfl
      · intro h; exact absurd rfl h
  · refine ⟨.ErrEndOfPipeline, ?_, ?_, ?_, fun _ => rfl⟩
    · simp [forwarder.Process, hc, assertClient]
    · intro pd h
      cases h
    · intro pd e h
      cases h
  · refine ⟨.ErrEndOfPipeline, ?_, ?_, ?_, fun _ => rfl⟩
    · simp [forwarder.Process, hc, assertClient]
    · intro pd h
      cases h
    · intro pd e h
      cases h

/-- C1, evaluated where it fails: the forwarder `newFactory` builds from a decodable main
configuration and one decodable override for token "t" holds a `Config` (not a
`*Client`) for that token, and `Process` on a traces record of token "t" panics at
the assertion `.(*Client)`: it returns neither a record nor an error and forwards nothing. -/
theorem Process_panics_on_overridden_token :
    (newFactory demoEnv (some 1) [⟨"t", "", "", some 2⟩]).2 = .ok demoForwarder ∧
      demoForwarder.clients.GetByToken "t" = some (.config 2) ∧
      demoForwarder.Process demoEnv [] ⟨.RecordTraces, ⟨"t"⟩, .traces "spans"⟩
        = { effects := [], result := none } := by
  refine ⟨rfl, ?_, ?_⟩
  · decide
  · decide

/-- C2 as amended.  Whenever `Process` returns the end-of-pipeline sentinel for a Traces
record, the table entry of the record's token is a client and the stage made exactly
one forward call, on that client and with the record's data.  For a Traces record
whose token resolves to a client and whose data are traces, `Process` does return:
it makes that one call and returns the error of the call, or the sentinel when the
call reports none.  For a record of any other kind whose token resolves to a client,
`Process` returns the sentinel and makes no call at all. -/
theorem Process_sentinel_forwarded_iff_traces (env : Env Raw Cfg Pd)
    (hist : List (Effect Cfg Pd)) (p : forwarder Raw Cfg) (record : Record Pd) :
    (∀ out, (p.Process env hist record).result = some (out, some GoError.ErrEndOfPipeline) →
        record.RecordType = .RecordTraces →
        ∃ client pd, p.clients.GetByToken record.Token.Original = some (.client client) ∧
          record.Data = .traces pd ∧
          (p.Process env hist record).effects = [.forwardTraces client pd]) ∧
      (∀ client pd, p.clients.GetByToken record.Token.Original = some (.client client) →
        record.RecordType = .RecordTraces → record.Data = .traces pd →
        p.Process env hist record
          = { effects := [.forwardTraces client pd],
              result := some (none,
                some ((env.ForwardTraces hist client pd).getD GoError.ErrEndOfPipeline)) }) ∧
      (∀ client, p.clients.GetByToken record.Token.Original = some (.client client) →
        record.RecordType ≠ .RecordTraces →
        p.Process env hist record
          = { effects := [], result := some (none, some GoError.ErrEndOfPipeline) }) := by
  obtain ⟨rt, tok, data⟩ := record
  refine ⟨?_, ?_, ?_⟩
  · intro out h hrt
    simp only at hrt
    subst hrt
    cases hg : p.clients.GetByToken tok.Original with
    | none => simp [forwarder.Process, hg, assertClient] at h
    | some v =>
      cases v with
      | config c => simp [forwarder.Process, hg, assertClient] at h
      | client client =>
        cases data with
        | traces pd =>
          refine ⟨client, pd, rfl, rfl, ?_⟩
          simp only [forwarder.Process, hg, assertClient]
          cases env.ForwardTraces hist client pd <;> rfl
        | metrics pd => simp [forwarder.Process, hg, assertClient] at h
        | logs pd => simp [forwarder.Process, hg, assertClient] at h
  · intro client pd hg hrt hd
    simp only at hg hrt hd
    subst hrt
    subst hd
    simp only [forwarder.Process, hg, assertClient]
    cases env.ForwardTraces hist client pd <;> rfl
  · intro client hg hrt
    simp only at hg hrt
    cases rt with
    | RecordTraces => exact absurd rfl hrt
    | RecordMetrics => simp [forwarder.Process, hg, assertClient]
    | RecordLogs => simp [forwarder.Process, hg, assertClient]

/-- C2 amended, at concrete inputs: a traces record whose forwarding succeeds, and a
metrics record, both for a token that resolves to the global client. -/
theorem Process_sentinel_forwarded_iff_traces_witness :
    demoForwarder.clients.GetByToken "u" = some (.client ⟨1⟩) ∧
      demoForwarder.Process demoEnv [] ⟨.RecordTraces, ⟨"u"⟩, .traces "spans"⟩
        = { effects := [.forwardTraces ⟨1⟩ "spans"],
            result := some (none,
              some ((demoEnv.ForwardTraces [] ⟨1⟩ "spans").getD GoError.ErrEndOfPipeline)) } ∧
      demoForwarder.Process demoEnv [] ⟨.RecordMetrics, ⟨"u"⟩, .metrics "points"⟩
        = { effects := [], result := some (none, some GoError.ErrEndOfPipeline) } ∧
      (∃ client pd, demoForwarder.clients.GetByToken "u" = some (.client client) ∧
        RecordData.traces "spans" = RecordData.traces pd ∧
        (demoForwarder.Process demoEnv [] ⟨.RecordTraces, ⟨"u"⟩, .traces "spans"⟩).effects
          = [.forwardTraces client pd]) :=
  ⟨by decide,
    (Process_sentinel_forwarded_iff_traces demoEnv [] demoForwarder
      ⟨.RecordTraces, ⟨"u"⟩, .traces "spans"⟩).2.1 ⟨1⟩ "spans" (by decide) rfl rfl,
    (Process_sentinel_forwarded_iff_traces demoEnv [] demoForwarder
      ⟨.RecordMetrics, ⟨"u"⟩, .metrics "points"⟩).2.2 ⟨1⟩ (by decide) (by decide),
    (Process_sentinel_forwarded_iff_traces demoEnv [] demoForwarder
      ⟨.RecordTraces, ⟨"u"⟩, .traces "spans"⟩).1 none (by decide) rfl⟩

/-- C2 refuted as stated: for a Metrics record and for a Logs record `Process` returns the
end-of-pipeline sentinel although no forward call was made. -/
theorem Process_sentinel_without_forward :
    demoForwarder.Process demoEnv [] ⟨.RecordMetrics, ⟨"u"⟩, .metrics "points"⟩
        = { effects := [], result := some (none, some GoError.ErrEndOfPipeline) } ∧
      demoForwarder.Process demoEnv [] ⟨.RecordLogs, ⟨"u"⟩, .logs "lines"⟩
        = { effects := [], result := some (none, some GoError.ErrEndOfPipeline) } ∧
      forwarded (demoForwarder.Process demoEnv [] ⟨.RecordMetrics, ⟨"u"⟩, .metrics "points"⟩).effects
        = [] := by
  decide

/-- Every override that decodes puts a value of dynamic type `Config` into the table,
which every call of `All()` returns, whatever its order. -/
theorem installOverrides_config_mem (env : Env Raw Cfg Pd)
    (customized : List (SubConfigProcessor Raw)) (clients : TierConfig (Value Cfg))
    (eff : List (Effect Cfg Pd)) (custom : SubConfigProcessor Raw) (cfg : Cfg)
    (hm : custom ∈ customized) (hd : env.Decode custom.Config = .ok cfg)
    (order : IterOrder (Value Cfg)) :
    ∃ c, Value.config c ∈ (installOverrides env customized clients eff).1.All order := by
  have key : ∀ (l : List (SubConfigProcessor Raw)) (cl : TierConfig (Value Cfg))
      (ef : List (Effect Cfg Pd)),
      (∃ c, Value.config c ∈ cl.installed) →
        ∃ c, Value.config c ∈ (installOverrides env l cl ef).1.installed := by
    intro l
    induction l with
    | nil => intro cl ef h; simpa [installOverrides] using h
    | cons a rest ih =>
      intro cl ef h
      simp only [installOverrides]
      cases hda : env.Decode a.Config with
      | error e => exact ih cl _ h
      | ok c0 =>
        apply ih
        exact ⟨c0, by simp [TierConfig.installed, TierConfig.Set]⟩
  have main : ∃ c, Value.config c ∈ (installOverrides env customized clients eff).1.installed := by
    induction customized generalizing clients eff with
    | nil => cases hm
    | cons a rest ih =>
      simp only [installOverrides]
      rcases List.mem_cons.mp hm with h | h
      · subst h
        rw [hd]
        apply key
        exact ⟨cfg, by simp [TierConfig.installed, TierConfig.Set]⟩
      · cases hda : env.Decode a.Config with
        | error e => exact ih _ _ h
        | ok c0 => exact ih _ _ h
  obtain ⟨c, hc⟩ := main
  exact ⟨c, (order.perm _).mem_iff.mpr hc⟩

/-- C3, evaluated where it fails: built from a decodable main configuration and one
decodable override for token "t", the table holds the client of the main
configuration and, for the override, the decoded `Config` itself, so that every
call of `All()` returns these two values in some order; the assertion `.(*Client)`
fails on the value `Process` reads for token "t" and on a value that `Clean`
iterates over, and `Clean` panics whatever the order. -/
theorem newFactory_stores_Config_for_override :
    (newFactory demoEnv (some 1) [⟨"t", "", "", some 2⟩]).2 = .ok demoForwarder ∧
      (∀ order, (demoForwarder.clients.All order).Perm [.client ⟨1⟩, .config 2]) ∧
      assertClient (demoForwarder.clients.GetByToken "t") = none ∧
      (∀ order, ∃ v ∈ demoForwarder.clients.All order, assertClient (some v) = none) ∧
      (∀ order, (demoForwarder.Clean demoEnv [] order).result = none) := by
  refine ⟨rfl, fun order => order.perm _, by decide, ?_, ?_⟩
  · intro order
    refine ⟨.config 2, (order.perm _).mem_iff.mpr ?_, rfl⟩
    decide
  · intro order
    rw [Clean_result]
    decide

/-- C4: on a table whose global value `g` was installed with `SetGlobal`, a lookup
whose key no override matches returns `g`, whatever the key; so do `Get("", "", "")`
and, when no override is keyed by the token alone, `GetByToken`; and the forwarder
built by `newFactory` with no tenant override resolves every lookup to the client
of its decoded main configuration. -/
theorem Get_global_of_no_override {V : Type} (tc : TierConfig V) (g : V)
    (token type id : String)
    (h : ∀ kv ∈ (tc.SetGlobal g).subs, kv.1 ≠ ⟨token, type, id⟩)
    (env : Env Raw Cfg Pd) (conf : Raw) (c : Cfg) (hd : env.Decode conf = .ok c) :
    (tc.SetGlobal g).Get token type id = some g ∧
      (tc.SetGlobal g).Get "" "" "" = some g ∧
      ((∀ kv ∈ (tc.SetGlobal g).subs, kv.1 ≠ ⟨token, "", ""⟩) →
        (tc.SetGlobal g).GetByToken token = some g) ∧
      ∃ p, (newFactory env conf []).2 = .ok p ∧
        ∀ tok ty i, p.clients.Get tok ty i = some (Value.client (NewClient c)) ∧
          p.clients.GetByToken tok = some (Value.client (NewClient c)) := by
  have aux : ∀ (k : TierKey), (∀ kv ∈ (tc.SetGlobal g).subs, kv.1 ≠ k) →
      (tc.SetGlobal g).lookup k = none := by
    intro k hk
    simp only [TierConfig.lookup, Option.map_eq_none', List.find?_eq_none]
    intro kv hkv
    simpa using hk kv hkv
  refine ⟨?_, ?_, ?_, ?_⟩
  · unfold TierConfig.Get
    rw [aux _ h]
    split <;> rfl
  · simp [TierConfig.Get, TierConfig.SetGlobal]
  · intro h2
    unfold TierConfig.GetByToken TierConfig.Get
    rw [aux _ h2]
    split <;> rfl
  · refine ⟨{ CommonProcessor := { mainConfig := conf, subConfigs := [] },
              clients := (TierConfig.NewTierConfig).SetGlobal (Value.client (NewClient c)) },
      by simp only [newFactory, hd, installOverrides], ?_⟩
    intro tok ty i
    simp [ TierConfig.GetByToken, TierConfig.Get, TierConfig.lookup,
      TierConfig.SetGlobal, TierConfig.NewTierConfig]

/-- C4 at a concrete input: a table with one override for token "a", looked up for
token "b"; a factory built from a decodable configuration and no override. -/
theorem Get_global_of_no_override_witness :
    (∀ kv ∈ (((TierConfig.NewTierConfig).Set "a" "x" "y" 5).SetGlobal 7).subs,
        kv.1 ≠ (⟨"b", "x", "y"⟩ : TierKey)) ∧
      demoEnv.Decode (some 1) = .ok 1 ∧
      ((((TierConfig.NewTierConfig).Set "a" "x" "y" 5).SetGlobal 7).Get "b" "x" "y" = some 7 ∧
      (((TierConfig.NewTierConfig).Set "a" "x" "y" 5).SetGlobal 7).Get "" "" "" = some 7 ∧
      ((∀ kv ∈ (((TierConfig.NewTierConfig).Set "a" "x" "y" 5).SetGlobal 7).subs,
          kv.1 ≠ (⟨"b", "", ""⟩ : TierKey)) →
        (((TierConfig.NewTierConfig).Set "a" "x" "y" 5).SetGlobal 7).GetByToken "b" = some 7) ∧
      ∃ p, (newFactory demoEnv (some 1) []).2 = .ok p ∧
        ∀ tok ty i, p.clients.Get tok ty i = some (Value.client (NewClient 1)) ∧
          p.clients.GetByToken tok = some (Value.client (NewClient 1))) :=
  ⟨by decide, rfl,
    Get_global_of_no_override ((TierConfig.NewTierConfig).Set "a" "x" "y" 5) 7 "b" "x" "y"
      (by decide) demoEnv (some 1) 1 rfl⟩

/-- C6: when the raw stage configuration does not decode, `newFactory` and `NewFactory`
return the decode error and no stage instance, and perform no effect at all: no
client is constructed and no override is looked at. -/
theorem newFactory_decode_error (env : Env Raw Cfg Pd) (conf : Raw)
    (customized : List (SubConfigProcessor Raw)) (err : GoError)
    (h : env.Decode conf = .error err) :
    newFactory env conf customized = ([], .error err) ∧
      NewFactory env conf customized = ([], .error err) := by
  simp [NewFactory, newFactory, h]

/-- C6 at a concrete input: an undecodable main configuration with a decodable override. -/
theorem newFactory_decode_error_witness :
    demoEnv.Decode none = .error (.other "decode") ∧
      newFactory demoEnv none [⟨"t", "", "", some 2⟩] = ([], .error (.other "decode")) ∧
      NewFactory demoEnv none [⟨"t", "", "", some 2⟩] = ([], .error (.other "decode")) :=
  ⟨rfl, newFactory_decode_error demoEnv none [⟨"t", "", "", some 2⟩] (.other "decode") rfl⟩

/-- Reading the table after `Set`: the written key gives the written value, every other
key what it gave before. -/
theorem lookup_Set {V : Type} (tc : TierConfig V) (token type id : String) (v : V)
    (k : TierKey) :
    (tc.Set token type id v).lookup k
      = if k = ⟨token, type, id⟩ then some v else tc.lookup k := by
  simp only [TierConfig.lookup, TierConfig.Set, List.find?_append, List.find?_filter]
  by_cases hk : k = ⟨token, type, id⟩
  · subst hk
    have h0 : List.find? (fun a : TierKey × V =>
        decide (decide (a.1 ≠ (⟨token, type, id⟩ : TierKey)) = true ∧
          decide (a.1 = (⟨token, type, id⟩ : TierKey)) = true)) tc.subs = none := by
      rw [List.find?_eq_none]
      intro x _
      simp
    rw [h0]
    simp
  · have h1 : (fun a : TierKey × V =>
        decide (decide (a.1 ≠ (⟨token, type, id⟩ : TierKey)) = true ∧ decide (a.1 = k) = true))
        = (fun a : TierKey × V => decide (a.1 = k)) := by
      funext a
      by_cases ha : a.1 = k
      · simp [ha, hk]
      · simp [ha]
    rw [h1]
    have h2 : List.find? (fun a : TierKey × V => decide (a.1 = k))
        [((⟨token, type, id⟩ : TierKey), v)] = none := by
      simp [List.find?, Ne.symm hk]
    rw [h2]
    simp [hk]

/-- The last entry for a key in a list with one more entry in front. -/
theorem lastFor_cons (k k0 : TierKey) (c : Cfg) (l : List (TierKey × Cfg)) :
    lastFor k ((k0, c) :: l) = (lastFor k l).or (if k0 = k then some c else none) := by
  unfold lastFor
  by_cases h : k0 = k
  · simp only [List.filter_cons, h, decide_True, if_true, List.getLast?_cons]
    cases (List.filter (fun kv : TierKey × Cfg => decide (kv.1 = k)) l).getLast? <;> simp
  · have h0 : List.filter (fun kv : TierKey × Cfg => decide (kv.1 = k)) ((k0, c) :: l)
        = List.filter (fun kv : TierKey × Cfg => decide (kv.1 = k)) l := by
      simp [List.filter_cons, h]
    rw [h0, if_neg h, Option.or_none]

/-- The loop of `newFactory` leaves at each key the last decodable override for it, or,
when there is none, what the table held before; the global value is untouched. -/
theorem installOverrides_lookup (env : Env Raw Cfg Pd)
    (customized : List (SubConfigProcessor Raw)) (clients : TierConfig (Value Cfg))
    (eff : List (Effect Cfg Pd)) (k : TierKey) :
    (installOverrides env customized clients eff).1.lookup k
        = ((lastFor k (decodedOverrides env customized)).map Value.config).or (clients.lookup k) ∧
      (installOverrides env customized clients eff).1.global = clients.global := by
  induction customized generalizing clients eff with
  | nil => simp [installOverrides, decodedOverrides, lastFor]
  | cons a rest ih =>
    simp only [installOverrides, decodedOverrides]
    cases hda : env.Decode a.Config with
    | error e => exact ih clients _
    | ok cfg =>
      simp only
      obtain ⟨h1, h2⟩ := ih (clients.Set a.Token a.Typ a.ID (Value.config cfg)) eff
      refine ⟨?_, by rw [h2]; rfl⟩
      rw [h1, lookup_Set, lastFor_cons]
      cases lastFor k (decodedOverrides env rest) with
      | some x => simp
      | none =>
        by_cases hk : k = ⟨a.Token, a.Typ, a.ID⟩
        · simp [hk]
        · simp [hk, Ne.symm hk]

/-- C7: when the raw configuration decodes, `newFactory` (and `NewFactory`) succeeds
whatever the overrides; the global value of `clients` is the client of the main
configuration, and at every key (Token, Type, ID) the table holds exactly the
configuration of the last entry with that key that decodes, and nothing when no
entry with that key decodes.  Entries that fail to decode leave no trace. -/
theorem newFactory_installs_decodable_overrides (env : Env Raw Cfg Pd) (conf : Raw)
    (customized : List (SubConfigProcessor Raw)) (c : Cfg) (hd : env.Decode conf = .ok c) :
    ∃ p, (newFactory env conf customized).2 = .ok p ∧
      (NewFactory env conf customized).2 = .ok p ∧
      p.clients.global = some (Value.client (NewClient c)) ∧
      ∀ k, p.clients.lookup k
        = (lastFor k (decodedOverrides env customized)).map Value.config := by
  refine ⟨{ CommonProcessor := { mainConfig := conf, subConfigs := customized },
            clients := (installOverrides env customized
              ((TierConfig.NewTierConfig).SetGlobal (Value.client (NewClient c)))
              [.newClient c]).1 },
    by simp only [newFactory, hd], by simp only [NewFactory, newFactory, hd], ?_, ?_⟩
  · exact (installOverrides_lookup env customized _ _ ⟨"", "", ""⟩).2
  · intro k
    rw [(installOverrides_lookup env customized _ _ k).1]
    simp [TierConfig.lookup, TierConfig.SetGlobal, TierConfig.NewTierConfig]

/-- C7 at a concrete input: two decodable overrides for the same key around an
undecodable one, and a decodable override for another key after it. -/
theorem newFactory_installs_decodable_overrides_witness :
    demoEnv.Decode (some 1) = .ok 1 ∧
      ∃ p, (newFactory demoEnv (some 1)
          [⟨"t", "", "", some 2⟩, ⟨"x", "", "", none⟩, ⟨"t", "", "", some 3⟩,
            ⟨"s", "service", "9", some 4⟩]).2 = .ok p ∧
        (NewFactory demoEnv (some 1)
          [⟨"t", "", "", some 2⟩, ⟨"x", "", "", none⟩, ⟨"t", "", "", some 3⟩,
            ⟨"s", "service", "9", some 4⟩]).2 = .ok p ∧
        p.clients.global = some (Value.client (NewClient 1)) ∧
        ∀ k, p.clients.lookup k
          = (lastFor k (decodedOverrides demoEnv
              [⟨"t", "", "", some 2⟩, ⟨"x", "", "", none⟩, ⟨"t", "", "", some 3⟩,
                ⟨"s", "service", "9", some 4⟩])).map Value.config :=
  ⟨rfl, newFactory_installs_decodable_overrides demoEnv (some 1)
    [⟨"t", "", "", some 2⟩, ⟨"x", "", "", none⟩, ⟨"t", "", "", some 3⟩,
      ⟨"s", "service", "9", some 4⟩] 1 rfl⟩

/-- When every value of the table is a `*Client`, `Clean` completes, and the clients it
invoked `Stop` on are the values that `All()` returned, in that order, each once,
whatever the `Stop` calls return. -/
theorem Clean_of_clients (env : Env Raw Cfg Pd) (hist : List (Effect Cfg Pd))
    (order : IterOrder (Value Cfg)) (p : forwarder Raw Cfg)
    (h : (p.clients.All order).all Value.isClient = true) :
    (p.Clean env hist order).result = some () ∧
      (stopped (p.Clean env hist order).effects).map Value.client = p.clients.All order := by
  refine ⟨by simp [forwarder.Clean, cleanLoop_result, h], ?_⟩
  simp only [forwarder.Clean, cleanLoop_stopped, stopped, List.nil_append]
  exact clientPrefix_of_all _ h

/-- C8, evaluated where it fails: on the forwarder built from a main configuration and
one decodable override, `All()` returns the global client and the override's
`Config`, in some order.  Whatever the order, `Clean` panics at the assertion
`.(*Client)` and the only client it can have stopped is the global one: the
tenant-scoped value is never stopped.  When `All()` returns the global client first,
`Clean` stops it and then panics; when it returns the `Config` first, `Clean`
panics at once. -/
theorem Clean_panics_at_override :
    (newFactory demoEnv (some 1) [⟨"t", "", "", some 2⟩]).2 = .ok demoForwarder ∧
      (∀ order, (demoForwarder.clients.All order).Perm [.client ⟨1⟩, .config 2]) ∧
      (∀ order, (demoForwarder.Clean demoEnv [] order).result = none ∧
        ∀ c ∈ stopped (demoForwarder.Clean demoEnv [] order).effects, c = ⟨1⟩) ∧
      demoForwarder.Clean demoEnv [] IterOrder.stored
        = { effects := [.stop ⟨1⟩], result := none } ∧
      stopped (demoForwarder.Clean demoEnv [] IterOrder.stored).effects = [⟨1⟩] ∧
      demoForwarder.Clean demoEnv [] IterOrder.reversed
        = { effects := [], result := none } := by
  refine ⟨rfl, fun order => order.perm _, ?_, by decide, by decide, by decide⟩
  intro order
  refine ⟨by rw [Clean_result]; decide, ?_⟩
  intro c hc
  simp only [forwarder.Clean, cleanLoop_stopped, stopped, List.nil_append] at hc
  have hmem := (order.perm _).mem_iff.mp (mem_of_mem_clientPrefix _ c hc)
  simp [TierConfig.installed, demoForwarder] at hmem
  exact hmem

/-- C9 as amended: on a forwarder whose table holds clients only, `Clean` keeps no record
of having run.  A second call, made after the effects of the first and seeing the
values in any order, completes like the first and invokes `Stop` again on every
client of the table, once each, as the first call did. -/
theorem Clean_second_call_repeats (env : Env Raw Cfg Pd) (hist : List (Effect Cfg Pd))
    (o1 o2 : IterOrder (Value Cfg)) (p : forwarder Raw Cfg)
    (h : ∀ v ∈ p.clients.installed, Value.isClient v = true) :
    (p.Clean env hist o1).result = some () ∧
      (p.Clean env (hist ++ (p.Clean env hist o1).effects) o2).result = some () ∧
      ((stopped (p.Clean env hist o1).effects).map Value.client).Perm p.clients.installed ∧
      ((stopped (p.Clean env (hist ++ (p.Clean env hist o1).effects) o2).effects).map
        Value.client).Perm p.clients.installed ∧
      ((stopped ((p.Clean env hist o1).effects
        ++ (p.Clean env (hist ++ (p.Clean env hist o1).effects) o2).effects)).map
        Value.client).Perm (p.clients.installed ++ p.clients.installed) := by
  have hall : ∀ order : IterOrder (Value Cfg),
      (p.clients.All order).all Value.isClient = true := by
    intro order
    rw [List.all_eq_true]
    intro v hv
    exact h v ((order.perm _).mem_iff.mp hv)
  have h1 := Clean_of_clients env hist o1 p (hall o1)
  have h2 := Clean_of_clients env (hist ++ (p.Clean env hist o1).effects) o2 p (hall o2)
  have p1 : ((stopped (p.Clean env hist o1).effects).map Value.client).Perm
      p.clients.installed := by
    rw [h1.2]
    exact o1.perm _
  have p2 : ((stopped (p.Clean env (hist ++ (p.Clean env hist o1).effects) o2).effects).map
      Value.client).Perm p.clients.installed := by
    rw [h2.2]
    exact o2.perm _
  refine ⟨h1.1, h2.1, p1, p2, ?_⟩
  rw [stopped_append, List.map_append]
  exact List.Perm.append p1 p2

/-- C9 amended, at a concrete input: a table with two clients, the second of which fails
to stop; the first call sees them as stored, the second back to front. -/
theorem Clean_second_call_repeats_witness :
    (∀ v ∈ twoClientForwarder.clients.installed, Value.isClient v = true) ∧
      (twoClientForwarder.Clean demoEnv [] IterOrder.stored).result = some () ∧
      (twoClientForwarder.Clean demoEnv
        ([] ++ (twoClientForwarder.Clean demoEnv [] IterOrder.stored).effects)
        IterOrder.reversed).result = some () ∧
      ((stopped (twoClientForwarder.Clean demoEnv [] IterOrder.stored).effects).map
        Value.client).Perm twoClientForwarder.clients.installed ∧
      ((stopped (twoClientForwarder.Clean demoEnv
        ([] ++ (twoClientForwarder.Clean demoEnv [] IterOrder.stored).effects)
        IterOrder.reversed).effects).map Value.client).Perm
          twoClientForwarder.clients.installed ∧
      ((stopped ((twoClientForwarder.Clean demoEnv [] IterOrder.stored).effects
        ++ (twoClientForwarder.Clean demoEnv
          ([] ++ (twoClientForwarder.Clean demoEnv [] IterOrder.stored).effects)
          IterOrder.reversed).effects)).map Value.client).Perm
          (twoClientForwarder.clients.installed ++ twoClientForwarder.clients.installed) :=
  ⟨by decide, Clean_second_call_repeats demoEnv [] IterOrder.stored IterOrder.reversed
    twoClientForwarder (by decide)⟩

/-- C9 refuted as stated: on the forwarder built with no override, whose `Stop` succeeds,
the second call of `Clean` is not a no-op: it invokes `Stop` on the global client
a second time. -/
theorem Clean_twice_stops_twice :
    (newFactory demoEnv (some 1) []).2 = .ok plainForwarder ∧
      plainForwarder.Clean demoEnv [] IterOrder.stored
        = { effects := [.stop ⟨1⟩], result := some () } ∧
      plainForwarder.Clean demoEnv [.stop ⟨1⟩] IterOrder.stored
        = { effects := [.stop ⟨1⟩], result := some () } ∧
      stopped ((plainForwarder.Clean demoEnv [] IterOrder.stored).effects
        ++ (plainForwarder.Clean demoEnv
            (plainForwarder.Clean demoEnv [] IterOrder.stored).effects
            IterOrder.stored).effects)
        = [⟨1⟩, ⟨1⟩] := by
  refine ⟨rfl, by decide, by decide, by decide⟩

end ForwarderTheorems

end Collector

/-! ## Theorems: SkyWalking handlers -/

namespace Collector

section SkywalkingTheorems

variable {Pd : Type}

/-- C5: for a request to `reportV3Segments` or `reportV3Segment` whose body is readable
and decodes, if the Validator returns a status other than OK together with an
error, the handler answers with exactly that status and publishes nothing. -/
theorem segment_handlers_reject (svc : HttpService Pd) (decode : String → Option (Record Pd))
    (buf : String) (record : Record Pd) (code : StatusCode) (msg : String) (err : GoError)
    (hdec : decode buf = some record)
    (hv : svc.Validator record = (code, msg, some err)) (hcode : code ≠ StatusCodeOK) :
    svc.reportV3Segments decode ⟨some buf⟩ = { code := code, published := [] } ∧
      svc.reportV3Segment decode ⟨some buf⟩ = { code := code, published := [] } := by
  simp [HttpService.reportV3Segments, HttpService.reportV3Segment, handleSegmentRequest,
    hdec, hv, hcode]

/-- C5 at a concrete input: the gate answers 429 to a decodable body. -/
theorem segment_handlers_reject_witness :
    demoDecode "[]" = some ⟨.RecordTraces, ⟨"token1"⟩, .traces "[]"⟩ ∧
      busyService.Validator ⟨.RecordTraces, ⟨"token1"⟩, .traces "[]"⟩
        = (StatusCodeTooManyRequests, "", some (.other "too many requests")) ∧
      StatusCodeTooManyRequests ≠ StatusCodeOK ∧
      busyService.reportV3Segments demoDecode ⟨some "[]"⟩ = { code := 429, published := [] } ∧
      busyService.reportV3Segment demoDecode ⟨some "[]"⟩ = { code := 429, published := [] } :=
  ⟨by decide, rfl, by decide,
    segment_handlers_reject busyService demoDecode "[]" ⟨.RecordTraces, ⟨"token1"⟩, .traces "[]"⟩
      StatusCodeTooManyRequests "" (.other "too many requests") (by decide) rfl (by decide)⟩

end SkywalkingTheorems

end Collector

/-! ## Theorems: GSE output -/

namespace Gse

open Collector (GoError)

/-- The digit loop of `ParseUint` never returns a value above `maxVal` without an error. -/
theorem parseUintLoop_le (maxVal : Nat) (cs : List Char) (n v : Nat)
    (h : parseUintLoop maxVal cs n = (v, none)) (hn : n ≤ maxVal) : v ≤ maxVal := by
  induction cs generalizing n with
  | nil =>
    simp only [parseUintLoop, Prod.mk.injEq, and_true] at h
    omega
  | cons c cs ih =>
    simp only [parseUintLoop] at h
    split at h
    · split at h
      · simp at h
      · exact ih _ h (by omega)
    · simp at h

/-- A string that `ParseInt(s, 10, 32)` accepts has a value in the int32 range. -/
theorem ParseInt_range (s : String) (n : Int) (h : ParseInt s 32 = (n, none)) :
    -2147483648 ≤ n ∧ n ≤ 2147483647 := by
  unfold ParseInt at h
  split at h
  · simp at h
  · simp only at h
    split at h
    · simp at h
    · split at h
      · simp at h
      · split at h
        · simp at h
        · rename_i h1 h2
          simp only [Prod.mk.injEq, and_true] at h
          simp at h1 h2
          split at h
          · rename_i hneg
            have := h2 (by simpa using hneg)
            omega
          · rename_i hneg
            have := h1 (by simpa using hneg)
            omega

/-- For a string that `ParseInt(s, 10, 32)` accepts, `getdataid` is the parsed value. -/
theorem getdataid_str_parsed (s : String) (n : Int) (h : ParseInt s 32 = (n, none)) :
    getdataid (.str s) = n := by
  have hr := ParseInt_range s n h
  simp only [getdataid, h, toInt32]
  omega

/-- Values of `getdataid`: a string out of the int32 range, a string that is no number,
the empty string, the strings "0" and "1001", an `int` and a `uint` that wrap. -/
theorem getdataid_examples :
    getdataid (.str "2147483648") = -1 ∧ getdataid (.str "12a") = -1 ∧
      getdataid (.str "") = -1 ∧ getdataid (.str "0") = 0 ∧ getdataid (.str "1001") = 1001 ∧
      getdataid (.int 4294967297) = 1 ∧ getdataid (.uint 4294967295) = -1 := by
  decide

/-- The method `PublishEvent` on three events: one without "dataid", one whose dataid is
the string "0", one with dataid 1001, which alone reaches the GSE client. -/
theorem PublishEvent_examples :
    PublishEvent demoGseEnv emptyState ⟨some [("x", .str "y")], none⟩
        = (some (.other "event lost dataid"), emptyState, some [("x", .str "y")]) ∧
      PublishEvent demoGseEnv emptyState ⟨some [("dataid", .str "0")], none⟩
        = (some (.other "dataid 0 <= 0"), emptyState, some [("dataid", .str "0")]) ∧
      (PublishEvent demoGseEnv emptyState ⟨some [("dataid", .int 1001)], none⟩).1 = none ∧
      (PublishEvent demoGseEnv emptyState ⟨some [("dataid", .int 1001)], none⟩).2.1.sent
        = [{ buf := "9", dataid := 1001 }] := by
  decide

/-- C10: `PublishEvent` has three outcomes.  Without a "dataid" key it returns the error
"event lost dataid"; with a dataid value that `getdataid` converts to an int32
that is not positive it returns the error "dataid n <= 0"; in both cases the state
is left as it was, so nothing is sent to the GSE client.  Only with a positive
dataid is the event handed to `publishEventAttachInfo`, whose result it returns.
In `getdataid`, a string that `ParseInt` rejects (syntax or int32 range) gives -1
and a value of any unsupported type gives 0. -/
theorem PublishEvent_dataid_gate (env : GseEnv) (st : GseState) (event : Event) :
    ((eventDataid event = none ∧
        PublishEvent env st event = (some (.other "event lost dataid"), st, event.Fields)) ∨
      (∃ val, eventDataid event = some val ∧ getdataid val ≤ 0 ∧
        PublishEvent env st event
          = (some (.other ("dataid " ++ String32 (getdataid val) ++ " <= 0")), st, event.Fields)) ∨
      (∃ data val, event.Fields = some data ∧ data.get "dataid" = some val ∧
        0 < getdataid val ∧
        PublishEvent env st event
          = ((publishEventAttachInfo env st (getdataid val) (withMeta data event.Meta)).1,
             (publishEventAttachInfo env st (getdataid val) (withMeta data event.Meta)).2.1,
             some (publishEventAttachInfo env st (getdataid val) (withMeta data event.Meta)).2.2))) ∧
      (∀ s, (ParseInt s 32).2 ≠ none → getdataid (.str s) = -1) ∧
      (∀ desc, getdataid (.obj desc) = 0) := by
  refine ⟨?_, ?_, fun _ => rfl⟩
  · obtain ⟨fields, m⟩ := event
    cases fields with
    | none => exact Or.inl ⟨rfl, rfl⟩
    | some data =>
      cases hval : data.get "dataid" with
      | none =>
        refine Or.inl ⟨by simp [eventDataid, hval], ?_⟩
        simp [PublishEvent, hval]
      | some val =>
        by_cases hpos : getdataid val ≤ 0
        · refine Or.inr (Or.inl ⟨val, by simp [eventDataid, hval], hpos, ?_⟩)
          simp [PublishEvent, hval, hpos]
        · refine Or.inr (Or.inr ⟨data, val, rfl, hval, by omega, ?_⟩)
          simp only [PublishEvent, hval, hpos, if_false]
          cases m <;> rfl
  · intro s hs
    cases h : ParseInt s 32 with
    | mk n e =>
      cases e with
      | none => rw [h] at hs; exact absurd rfl hs
      | some e0 => simp only [getdataid, h]

end Gse

/-! ## Theorems: GSE output, agent info and counters -/

namespace Gse

open Collector (GoError)

/-- Reading a map after a write: the written key gives the written value, every other
key what it gave before. -/
theorem MapStr.get_set (m : MapStr) (k k2 : String) (v : GoValue) :
    (m.set k v).get k2 = if k2 = k then some v else m.get k2 := by
  unfold MapStr.set MapStr.get
  induction m with
  | nil =>
    by_cases h : k2 = k
    · simp [List.lookup, h]
    · have hb : (k2 == k) = false := beq_false_of_ne h
      simp [List.lookup, h, hb]
  | cons kv rest ih =>
    obtain ⟨a, b⟩ := kv
    by_cases ha : a = k
    · subst ha
      have hf : List.filter (fun kv : String × GoValue => decide (kv.1 ≠ a)) ((a, b) :: rest)
          = List.filter (fun kv : String × GoValue => decide (kv.1 ≠ a)) rest := by
        simp [List.filter_cons]
      rw [hf, ih]
      by_cases h : k2 = a
      · simp [h]
      · have hb : (k2 == a) = false := beq_false_of_ne h
        simp [List.lookup, h, hb]
    · have hf : List.filter (fun kv : String × GoValue => decide (kv.1 ≠ k)) ((a, b) :: rest)
          = (a, b) :: List.filter (fun kv : String × GoValue => decide (kv.1 ≠ k)) rest := by
        simp [List.filter_cons, ha]
      rw [hf]
      by_cases h2 : k2 = a
      · subst h2
        simp [List.lookup, ha]
      · have hb : (k2 == a) = false := beq_false_of_ne h2
        simp only [List.cons_append, List.lookup, hb]
        exact ih

/-- C13: for standard-format data (no "_time_" key) and a non-empty agent info,
`publishEventAttachInfo` leaves an existing "bk_biz_id" as it is, and sets a missing
one to the agent's `BKBizID`. -/
theorem publishEventAttachInfo_bk_biz_id (env : GseEnv) (st : GseState) (dataid : Int)
    (data : MapStr) (hstd : data.get "_time_" = none)
    (hinfo : env.IsEmpty (env.Fetch (attachState st dataid data)) = false) :
    (publishEventAttachInfo env st dataid data).2.2.get "bk_biz_id"
      = match data.get "bk_biz_id" with
        | some v => some v
        | none => some (.int (env.Fetch (attachState st dataid data)).BKBizID) := by
  have hst : (if (data.get "gseindex").isNone then getGseIndex st dataid else (0, st)).2
      = attachState st dataid data := by
    unfold attachState
    split <;> rfl
  unfold publishEventAttachInfo
  simp only [hst, hinfo, hstd, Option.isNone_none, if_true, Bool.false_eq_true, if_false]
  cases hb : data.get "bk_biz_id" with
  | none => simp [MapStr.get_set, hb]
  | some v => simp [MapStr.get_set, hb]

/-- C13 at a concrete input: an event that brings its own "bk_biz_id". -/
theorem publishEventAttachInfo_bk_biz_id_witness :
    MapStr.get [("dataid", .int 1001), ("bk_biz_id", .int 99)] "_time_" = none ∧
      demoGseEnv.IsEmpty (demoGseEnv.Fetch
        (attachState emptyState 1001 [("dataid", .int 1001), ("bk_biz_id", .int 99)])) = false ∧
      (publishEventAttachInfo demoGseEnv emptyState 1001
          [("dataid", .int 1001), ("bk_biz_id", .int 99)]).2.2.get "bk_biz_id"
        = match MapStr.get [("dataid", .int 1001), ("bk_biz_id", .int 99)] "bk_biz_id" with
          | some v => some v
          | none => some (.int (demoGseEnv.Fetch
              (attachState emptyState 1001 [("dataid", .int 1001), ("bk_biz_id", .int 99)])).BKBizID) :=
  ⟨by decide, by decide,
    publishEventAttachInfo_bk_biz_id demoGseEnv emptyState 1001
      [("dataid", .int 1001), ("bk_biz_id", .int 99)] (by decide) (by decide)⟩

/-- A loader whose `sync.Once` has fired is left unchanged by any further `Init`. -/
theorem initAll_of_once {W : Type} (l : agentInfoLoader W) (h : l.once = true)
    (rest : List (Option (W → AgentInfo × Option GoError))) : initAll l rest = l := by
  induction rest with
  | nil => rfl
  | cons fn rest ih =>
    have h1 : l.Init fn = l := by simp [agentInfoLoader.Init, h]
    simp only [initAll, h1, ih]

/-- C14: on the package loader, of the calls `Init(f1)`, `Init(f2)`, ..., `Init(fn)` only the
first takes effect: the loader after all of them is the loader after `Init(f1)`,
`Fetch` returns what `f1` returns, and `Init` on a loader that was initialised
leaves it unchanged. -/
theorem agentInfoLoader_init_once {W : Type} (f1 : W → AgentInfo × Option GoError)
    (rest : List (Option (W → AgentInfo × Option GoError))) (w : W) :
    initAll ail (some f1 :: rest) = (ail : agentInfoLoader W).Init (some f1) ∧
      (initAll ail (some f1 :: rest)).Fetch w = f1 w ∧
      (∀ fn, ((ail : agentInfoLoader W).Init (some f1)).Init fn
        = (ail : agentInfoLoader W).Init (some f1)) := by
  have h0 : initAll ail (some f1 :: rest) = (ail : agentInfoLoader W).Init (some f1) := by
    simp only [initAll]
    exact initAll_of_once _ rfl rest
  refine ⟨h0, ?_, ?_⟩
  · rw [h0]
    rfl
  · intro fn
    rfl

/-- The method `reportCommonData` never touches the counter `gse_publish_dropped`. -/
theorem reportCommonData_dropped (env : GseEnv) (st : GseState) (dataid : Int) (data : MapStr) :
    (reportCommonData env st dataid data).2.metrics.metricGsePublishDropped
      = st.metrics.metricGsePublishDropped := by
  cases h : env.MarshalFunc data <;> simp [reportCommonData, h]

/-- The method `publishEventAttachInfo` never touches the counter `gse_publish_dropped`. -/
theorem publishEventAttachInfo_dropped (env : GseEnv) (st : GseState) (dataid : Int)
    (data : MapStr) :
    (publishEventAttachInfo env st dataid data).2.1.metrics.metricGsePublishDropped
      = st.metrics.metricGsePublishDropped := by
  have hg : (if (data.get "gseindex").isNone then getGseIndex st dataid else (0, st)).2.metrics
      = st.metrics := by
    split <;> rfl
  unfold publishEventAttachInfo
  simp only
  generalize (if (data.get "gseindex").isNone then getGseIndex st dataid else (0, st)) = r at hg
  split
  · simp only [hg]
  · rw [reportCommonData_dropped, hg]

/-- The method `PublishEvent` never touches the counter `gse_publish_dropped`. -/
theorem PublishEvent_dropped (env : GseEnv) (st : GseState) (event : Event) :
    (PublishEvent env st event).2.1.metrics.metricGsePublishDropped
      = st.metrics.metricGsePublishDropped := by
  obtain ⟨fields, m⟩ := event
  cases fields with
  | none => rfl
  | some data =>
    cases hval : data.get "dataid" with
    | none => simp [PublishEvent, hval]
    | some val =>
      by_cases hpos : getdataid val ≤ 0
      · simp [PublishEvent, hval, hpos]
      · simp only [PublishEvent, hval, hpos, if_false]
        exact publishEventAttachInfo_dropped env st _ _

/-- The counter `gse_publish_dropped` grows by the number of events whose `Fields` is
nil, and by nothing else. -/
theorem publishLoop_dropped (env : GseEnv) (events : List Event) (st : GseState) :
    (publishLoop env events st).metrics.metricGsePublishDropped
      = st.metrics.metricGsePublishDropped + countNilFields events := by
  induction events generalizing st with
  | nil => simp [publishLoop, countNilFields]
  | cons ev rest ih =>
    obtain ⟨fields, m⟩ := ev
    cases fields with
    | none =>
      simp only [publishLoop, countNilFields, ih, Option.isNone_none, if_true]
      omega
    | some data =>
      simp only [publishLoop, countNilFields, Option.isNone_some, Bool.false_eq_true, if_false]
      split
      · rw [ih]
        simp [PublishEvent_dropped]
      · rw [ih]
        simp [PublishEvent_dropped]

/-- C15, evaluated where it fails: for a batch of one event whose fields are not nil but
hold no "dataid", `Publish` leaves `gse_publish_dropped` at 0 and counts the event
in `gse_publish_received` and `gse_publish_failed`, although the event was lost
for lack of a dataid. -/
theorem Publish_missing_dataid_not_dropped :
    countNoDataid [⟨some [("x", .str "y")], none⟩] = 1 ∧
      (Publish demoGseEnv emptyState [⟨some [("x", .str "y")], none⟩]).2.metrics
        = { metricGseAgentInfoFailed := 0, metricGseSendTotal := 0,
            metricGsePublishReceived := 1, metricGsePublishDropped := 0,
            metricGsePublishTotal := 0, metricGsePublishFailed := 1,
            metricGseTaskPublishTotal := [], metricGseTaskPublishFailed := [] } := by
  decide

end Gse

/-! ## Theorems: FTA alert transform -/

namespace Fta

section TransformTheorems

variable {Raw T : Type}

/-- Reading an association list after a write (old entry removed, new entry appended):
the written key gives the written value, every other key what it gave before. -/
theorem lookup_filter_append {β : Type} (m : List (String × β)) (k k2 : String) (v : β) :
    List.lookup k2 (m.filter (fun kv => decide (kv.1 ≠ k)) ++ [(k, v)])
      = if k2 = k then some v else List.lookup k2 m := by
  induction m with
  | nil =>
    by_cases h : k2 = k
    · simp [List.lookup, h]
    · have hb : (k2 == k) = false := beq_false_of_ne h
      simp [List.lookup, h, hb]
  | cons kv rest ih =>
    obtain ⟨a, b⟩ := kv
    by_cases ha : a = k
    · subst ha
      have hf : List.filter (fun kv : String × β => decide (kv.1 ≠ a)) ((a, b) :: rest)
          = List.filter (fun kv : String × β => decide (kv.1 ≠ a)) rest := by
        simp [List.filter_cons]
      rw [hf, ih]
      by_cases h : k2 = a
      · simp [h]
      · have hb : (k2 == a) = false := beq_false_of_ne h
        simp [List.lookup, h, hb]
    · have hf : List.filter (fun kv : String × β => decide (kv.1 ≠ k)) ((a, b) :: rest)
          = (a, b) :: List.filter (fun kv : String × β => decide (kv.1 ≠ k)) rest := by
        simp [List.filter_cons, ha]
      rw [hf]
      by_cases h2 : k2 = a
      · subst h2
        simp [List.lookup, ha]
      · have hb : (k2 == a) = false := beq_false_of_ne h2
        simp only [List.cons_append, List.lookup, hb]
        exact ih

/-- The last non-empty expression for a field in a list with one more entry in front. -/
theorem lastExpr_cons (f : String) (e : FieldExpr) (l : List FieldExpr) :
    lastExpr f (e :: l)
      = (lastExpr f l).or (if e.Field = f ∧ e.Expr ≠ "" then some e.Expr else none) := by
  unfold lastExpr
  by_cases h : e.Field = f ∧ e.Expr ≠ ""
  · have h0 : List.filter (fun e : FieldExpr => decide (e.Field = f ∧ e.Expr ≠ "")) (e :: l)
        = e :: List.filter (fun e : FieldExpr => decide (e.Field = f ∧ e.Expr ≠ "")) l := by
      simp [List.filter_cons, h]
    rw [h0, if_pos h, List.getLast?_cons]
    cases (List.filter (fun e : FieldExpr => decide (e.Field = f ∧ e.Expr ≠ "")) l).getLast? <;>
      simp
  · have h0 : List.filter (fun e : FieldExpr => decide (e.Field = f ∧ e.Expr ≠ "")) (e :: l)
        = List.filter (fun e : FieldExpr => decide (e.Field = f ∧ e.Expr ≠ "")) l := by
      simp only [List.filter_cons, h, decide_False, Bool.false_eq_true, if_false]
    rw [h0, if_neg h, Option.or_none]

/-- The loop of `convertToExprMap` maps each field to its last non-empty expression, or,
when it has none, to what the map held before. -/
theorem exprLoop_get (fields : List FieldExpr) (m : ExprMap) (f : String) :
    (exprLoop fields m).get f = (lastExpr f fields).or (m.get f) := by
  induction fields generalizing m with
  | nil => simp [exprLoop, lastExpr]
  | cons e rest ih =>
    simp only [exprLoop]
    rw [lastExpr_cons]
    by_cases he : e.Expr = ""
    · simp only [he, if_true, ih, ne_eq, not_true_eq_false, and_false, if_false, Option.or_none]
    · have hs : (m.set e.Field e.Expr).get f = if f = e.Field then some e.Expr else m.get f :=
        lookup_filter_append m e.Field f e.Expr
      rw [if_neg he, ih, hs]
      cases lastExpr f rest with
      | some x => simp
      | none =>
        by_cases hf : f = e.Field
        · simp [hf, he]
        · simp [hf, Ne.symm hf]

/-- A field has a last non-empty expression exactly when some entry for it has a
non-empty expression. -/
theorem lastExpr_isSome (f : String) (fields : List FieldExpr) :
    (lastExpr f fields).isSome ↔ ∃ e ∈ fields, e.Field = f ∧ e.Expr ≠ "" := by
  induction fields with
  | nil => simp [lastExpr]
  | cons e rest ih =>
    rw [lastExpr_cons]
    by_cases h : e.Field = f ∧ e.Expr ≠ ""
    · simp only [if_pos h, List.mem_cons, exists_eq_or_imp]
      constructor
      · intro _
        exact Or.inl h
      · intro _
        cases lastExpr f rest <;> simp
    · simp only [if_neg h, Option.or_none, ih, List.mem_cons, exists_eq_or_imp]
      constructor
      · intro h1
        exact Or.inr h1
      · intro h1
        rcases h1 with h1 | h1
        · exact absurd h1 h
        · exact h1

/-- C16: when its input decodes into a list of `{field, expr}` entries, `convertToExprMap`
returns no error and a map that holds a field exactly when some entry for that
field has a non-empty expr, mapped to the expr of the last such entry (entries
with an empty expr play no part); when the input does not decode it returns the
wrapped error and the nil map. -/
theorem convertToExprMap_spec (decode : Raw → Except TError (List FieldExpr)) (c : Raw) :
    match decode c with
    | .ok fields =>
      ∃ m, convertToExprMap decode c = (some m, none) ∧
        (∀ f, m.get f = lastExpr f fields) ∧
        (∀ f, (m.get f).isSome ↔ ∃ e ∈ fields, e.Field = f ∧ e.Expr ≠ "")
    | .error err =>
      convertToExprMap decode c = (none, some (WithMessage err "decode expr config failed")) := by
  cases h : decode c with
  | error err => simp [convertToExprMap, h]
  | ok fields =>
    refine ⟨exprLoop fields [], by simp [convertToExprMap, h], ?_, ?_⟩
    · intro f
      rw [exprLoop_get]
      simp [ExprMap.get]
    · intro f
      rw [exprLoop_get, ← lastExpr_isSome]
      simp [ExprMap.get]

/-- The loop that sets `matchedCleanConfig` finds the first config, in order, whose
trigger matches the data. -/
theorem matchedCleanConfig_eq_find (env : FtaEnv Raw T) (data : Container)
    (l : List (CleanConfig Raw T)) :
    matchedCleanConfig env data l = l.find? (fun c => env.IsMatch c.Trigger data) := by
  induction l with
  | nil => rfl
  | cons c rest ih =>
    simp only [matchedCleanConfig, List.find?_cons]
    cases env.IsMatch c.Trigger data <;> simp [ih]

/-- C17: for every input the transform runs with the alerts and the expression map of the
first clean config, in configured order, whose trigger matches the data: that
config's alerts unless its alert list is nil, and the map converted from its
normalizations unless the conversion fails; the default alerts and the default
expression map take their place in those two cases, and both defaults are used
when no clean config matches. -/
theorem transform_uses_first_matching_clean_config (env : FtaEnv Raw T)
    (p : AlertFTAProcessor Raw T) (src dst : Container) :
    transform env p src dst =
      match p.cleanConfigs.find? (fun c => env.IsMatch c.Trigger src) with
      | some c =>
        transformWith env
          (match c.Alerts with
           | some a => some a
           | none => p.defaultAlerts)
          (match (convertToExprMap env.DecodeFields c.Normalizations).2 with
           | none => (convertToExprMap env.DecodeFields c.Normalizations).1
           | some _ => p.defaultExprMap)
          src dst
      | none => transformWith env p.defaultAlerts p.defaultExprMap src dst := by
  unfold transform selectAlerts selectExprMap
  rw [matchedCleanConfig_eq_find]
  cases p.cleanConfigs.find? (fun c => env.IsMatch c.Trigger src) with
  | none => rfl
  | some c =>
    simp only [convertToExprMap]
    cases env.DecodeFields c.Normalizations <;> rfl

/-- Writing under another key does not change what is read under "alert_name". -/
theorem lookup_alert_name_Put (dst : Container) (key : String) (v : Val)
    (h : AlertNameField ≠ key) :
    List.lookup AlertNameField (dst.Put key v) = List.lookup AlertNameField dst := by
  unfold Container.Put
  rw [lookup_filter_append, if_neg h]

/-- The alert name loop writes the name of the first alert, in list order, whose trigger
matches, and writes nothing when none matches. -/
theorem alertNameLoop_lookup (env : FtaEnv Raw T) (data : Container) (alerts : List (Alert T))
    (dst : Container) :
    List.lookup AlertNameField (alertNameLoop env data alerts dst)
      = match alerts.find? (fun a => env.IsMatch a.Trigger data) with
        | some a => some (.str a.Name)
        | none => List.lookup AlertNameField dst := by
  induction alerts with
  | nil => rfl
  | cons a rest ih =>
    simp only [alertNameLoop, List.find?_cons]
    cases h : env.IsMatch a.Trigger data with
    | true =>
      simp only [if_true]
      unfold Container.Put
      rw [lookup_filter_append, if_pos rfl]
    | false => simpa using ih

/-- The event id and tags steps leave "alert_name" as it is. -/
theorem eventIDAndTags_lookup (env : FtaEnv Raw T) (exprMap : Option ExprMap)
    (src data dst : Container) :
    List.lookup AlertNameField (eventIDAndTags env exprMap src data dst).2
      = List.lookup AlertNameField dst := by
  have h1 : AlertNameField ≠ EventIDField := by decide
  have h2 : AlertNameField ≠ TagsField := by decide
  unfold eventIDAndTags
  simp only
  generalize (match dst.Get EventIDField with
    | .ok v => v
    | .error _ => Val.null) = eventID
  cases isNilOrEmpty eventID with
  | false =>
    simp only [Bool.false_eq_true, if_false]
    cases exprLookup exprMap TagsField with
    | none => rfl
    | some tagExpr =>
      simp only
      cases env.CompileJMESPathCustom tagExpr with
      | some err => rfl
      | none =>
        simp only
        cases env.Search tagExpr data with
        | error err => rfl
        | ok tags => exact lookup_alert_name_Put _ _ _ h2
  | true =>
    simp only [if_true]
    cases src.Get DefaultEventIDField with
    | error err => rfl
    | ok v =>
      simp only
      cases exprLookup exprMap TagsField with
      | none => exact lookup_alert_name_Put _ _ _ h1
      | some tagExpr =>
        simp only
        cases env.CompileJMESPathCustom tagExpr with
        | some err => exact lookup_alert_name_Put _ _ _ h1
        | none =>
          simp only
          cases env.Search tagExpr data with
          | error err => exact lookup_alert_name_Put _ _ _ h1
          | ok tags =>
            simp only
            rw [lookup_alert_name_Put _ _ _ h2, lookup_alert_name_Put _ _ _ h1]

/-- What the extraction callback does to "alert_name": called on a user field of that
name whose expression is in the map, compiles and searches without error, it
writes the type-transformed result; in every other case it leaves the entry alone. -/
theorem extractField_alert_name (env : FtaEnv Raw T) (exprMap : Option ExprMap)
    (data : Container) (config : MetaFieldConfig) (dst : Container) :
    List.lookup AlertNameField (extractField env exprMap data config dst).2
      = if config.FieldName = AlertNameField then
          match exprLookup exprMap AlertNameField with
          | none => List.lookup AlertNameField dst
          | some expr =>
            match env.CompileJMESPathCustom expr with
            | some _ => List.lookup AlertNameField dst
            | none =>
              match env.Search expr data with
              | .error _ => List.lookup AlertNameField dst
              | .ok field => some (env.TransformByField config field)
        else List.lookup AlertNameField dst := by
  unfold extractField
  by_cases hn : config.FieldName = AlertNameField
  · have ht : config.FieldName ≠ TagsField := by
      rw [hn]
      decide
    rw [if_neg ht, if_pos hn, hn]
    cases exprLookup exprMap AlertNameField with
    | none => rfl
    | some expr =>
      simp only
      cases env.CompileJMESPathCustom expr with
      | some err => rfl
      | none =>
        simp only
        cases env.Search expr data with
        | error err => rfl
        | ok field =>
          simp only
          unfold Container.Put
          rw [lookup_filter_append, if_pos rfl]
  · rw [if_neg hn]
    by_cases ht : config.FieldName = TagsField
    · rw [if_pos ht]
    · rw [if_neg ht]
      cases exprLookup exprMap config.FieldName with
      | none => rfl
      | some expr =>
        simp only
        cases env.CompileJMESPathCustom expr with
        | some err => rfl
        | none =>
          simp only
          cases env.Search expr data with
          | error err => rfl
          | ok field => exact lookup_alert_name_Put _ _ _ (Ne.symm hn)

/-- C18 as amended: what the output holds under "alert_name" after the transform.  When
the transform returns early (the ingest time does not convert, or "bk_plugin_id" is
absent) it is what the output held before.  Otherwise it is the name of the first
alert, in list order, whose trigger matches the data, later matching alerts
notwithstanding; and when no alert matches it is what `VisitUserSpecifiedFields`,
run with the extraction callback, left there.  That callback writes "alert_name"
only when called on a user field of that name whose expression is in the
expression map, compiles and searches the data without error, and then writes the
type-transformed result; in every other case it leaves "alert_name" as it was. -/
theorem transform_alert_name (env : FtaEnv Raw T) (p : AlertFTAProcessor Raw T)
    (src dst : Container) :
    (List.lookup AlertNameField (transform env p src dst).2
      = match env.TransformAutoTimeStamp
            (match src.Get IngestTimeField with
             | .ok v => v
             | .error _ => Val.null) with
        | .error _ => List.lookup AlertNameField dst
        | .ok stamp =>
          match src.Get DefaultPluginIDField with
          | .error _ => List.lookup AlertNameField dst
          | .ok PluginID =>
            match ((selectAlerts env p src).getD []).find? (fun a => env.IsMatch a.Trigger src) with
            | some a => some (.str a.Name)
            | none =>
              List.lookup AlertNameField
                (env.VisitUserSpecifiedFields (extractField env (selectExprMap env p src) src)
                  (((dst.Put IngestTimeField stamp).Put PluginIDField PluginID).Put
                    CleanTimeField env.CleanTime)).2) ∧
      (∀ (config : MetaFieldConfig) (d : Container),
        List.lookup AlertNameField (extractField env (selectExprMap env p src) src config d).2
          = if config.FieldName = AlertNameField then
              match exprLookup (selectExprMap env p src) AlertNameField with
              | none => List.lookup AlertNameField d
              | some expr =>
                match env.CompileJMESPathCustom expr with
                | some _ => List.lookup AlertNameField d
                | none =>
                  match env.Search expr src with
                  | .error _ => List.lookup AlertNameField d
                  | .ok field => some (env.TransformByField config field)
            else List.lookup AlertNameField d) := by
  refine ⟨?_, fun config d => extractField_alert_name env _ src config d⟩
  have h0 : AlertNameField ≠ IngestTimeField := by decide
  unfold transform transformWith
  simp only
  cases env.TransformAutoTimeStamp
      (match src.Get IngestTimeField with
       | .ok v => v
       | .error _ => Val.null) with
  | error err => rfl
  | ok stamp =>
    simp only
    cases src.Get DefaultPluginIDField with
    | error err => exact lookup_alert_name_Put _ _ _ h0
    | ok PluginID =>
      simp only
      rw [eventIDAndTags_lookup, alertNameLoop_lookup]
      rfl

/-- C18 refuted as stated.  First record: no alert matches the alarm type "disk", yet the
transform sets "alert_name" (to "disk", extracted by the expression configured for
the user field "alert_name") in an output that had none.  Second record: the first
alert matches the alarm type "cpu", yet the transform returns an error for lack of
"bk_plugin_id" and the output has no "alert_name". -/
theorem transform_alert_name_counterexample :
    (((selectAlerts demoFtaEnv demoProcessor
          [("bk_plugin_id", .str "p1"), ("__bk_event_id__", .str "e1"),
            ("alarm_type", .str "disk")]).getD []).find?
        (fun a => demoFtaEnv.IsMatch a.Trigger
          [("bk_plugin_id", .str "p1"), ("__bk_event_id__", .str "e1"),
            ("alarm_type", .str "disk")]) = none ∧
      transform demoFtaEnv demoProcessor
          [("bk_plugin_id", .str "p1"), ("__bk_event_id__", .str "e1"),
            ("alarm_type", .str "disk")] []
        = (none, [("bk_ingest_time", .null), ("plugin_id", .str "p1"), ("bk_clean_time", .num 0),
            ("alert_name", .str "disk"), ("event_id", .str "e1")])) ∧
      (((selectAlerts demoFtaEnv demoProcessor
          [("__bk_event_id__", .str "e1"), ("alarm_type", .str "cpu")]).getD []).find?
        (fun a => demoFtaEnv.IsMatch a.Trigger
          [("__bk_event_id__", .str "e1"), ("alarm_type", .str "cpu")])
        = some ⟨"cpu", "CPU usage"⟩ ∧
      transform demoFtaEnv demoProcessor
          [("__bk_event_id__", .str "e1"), ("alarm_type", .str "cpu")] []
        = (some ⟨"item not found"⟩, [("bk_ingest_time", .null)])) :=
  ⟨⟨rfl, rfl⟩, ⟨rfl, rfl⟩⟩

end TransformTheorems

end Fta
